import Mathlib

/-!
Shallow embedding of the `regular-rag` TypeScript package (document ingestion,
hybrid retrieval with Reciprocal Rank Fusion, knowledge-graph construction,
response cache, and the chatbot orchestrator), together with proofs checking
the natural-language specification against the code.

Strings are modelled as Lean `String` / `List Char` (JavaScript strings at the
code-point level), JavaScript numbers as `ℚ` for finite values (an explicit
marker is used where the code distinguishes non-finite values), byte values as
`Nat`, and the stores as explicit state passed in and out.
-/

set_option maxRecDepth 100000

namespace RegularRag

attribute [local semireducible] Rat.add Rat.sub Rat.mul Rat.inv Rat.ofScientific

/-- 32-bit wrap-around used by the SHA-256 model: everything is reduced
modulo 2^32. -/
def w32 (n : Nat) : Nat := n % 4294967296

/-- Right rotation of a 32-bit word. -/
def rotr (n x : Nat) : Nat := w32 ((x >>> n) ||| (x <<< (32 - n)))

/-- Logical right shift of a 32-bit word. -/
def shr (n x : Nat) : Nat := x >>> n

/-- SHA-256 round constants, eight rounds at a time. -/
def sha256K : List Nat :=
  [0x428a2f98, 0x71374491, 0xb5c0fbcf, 0xe9b5dba5,
   0x3956c25b, 0x59f111f1, 0x923f82a4, 0xab1c5ed5] ++
  [0xd807aa98, 0x12835b01, 0x243185be, 0x550c7dc3,
   0x72be5d74, 0x80deb1fe, 0x9bdc06a7, 0xc19bf174] ++
  [0xe49b69c1, 0xefbe4786, 0x0fc19dc6, 0x240ca1cc,
   0x2de92c6f, 0x4a7484aa, 0x5cb0a9dc, 0x76f988da] ++
  [0x983e5152, 0xa831c66d, 0xb00327c8, 0xbf597fc7,
   0xc6e00bf3, 0xd5a79147, 0x06ca6351, 0x14292967] ++
  [0x27b70a85, 0x2e1b2138, 0x4d2c6dfc, 0x53380d13,
   0x650a7354, 0x766a0abb, 0x81c2c92e, 0x92722c85] ++
  [0xa2bfe8a1, 0xa81a664b, 0xc24b8b70, 0xc76c51a3,
   0xd192e819, 0xd6990624, 0xf40e3585, 0x106aa070] ++
  [0x19a4c116, 0x1e376c08, 0x2748774c, 0x34b0bcb5,
   0x391c0cb3, 0x4ed8aa4a, 0x5b9cca4f, 0x682e6ff3] ++
  [0x748f82ee, 0x78a5636f, 0x84c87814, 0x8cc70208,
   0x90befffa, 0xa4506ceb, 0xbef9a3f7, 0xc67178f2]

/-- SHA-256 initial hash state. -/
def sha256H0 : List Nat :=
  [0x6a09e667, 0xbb67ae85, 0x3c6ef372, 0xa54ff53a,
   0x510e527f, 0x9b05688c, 0x1f83d9ab, 0x5be0cd19]

/-- Big-sigma-0 of the SHA-256 compression function. -/
def bsig0 (x : Nat) : Nat := (rotr 2 x) ^^^ (rotr 13 x) ^^^ (rotr 22 x)

/-- Big-sigma-1 of the SHA-256 compression function. -/
def bsig1 (x : Nat) : Nat := (rotr 6 x) ^^^ (rotr 11 x) ^^^ (rotr 25 x)

/-- Small-sigma-0 of the SHA-256 message schedule. -/
def ssig0 (x : Nat) : Nat := (rotr 7 x) ^^^ (rotr 18 x) ^^^ (shr 3 x)

/-- Small-sigma-1 of the SHA-256 message schedule. -/
def ssig1 (x : Nat) : Nat := (rotr 17 x) ^^^ (rotr 19 x) ^^^ (shr 10 x)

/-- `ch` component of SHA-256. -/
def sha256Ch (x y z : Nat) : Nat := (x &&& y) ^^^ ((x ^^^ 4294967295) &&& z)

/-- `maj` component of SHA-256. -/
def sha256Maj (x y z : Nat) : Nat := (x &&& y) ^^^ (x &&& z) ^^^ (y &&& z)

/-- Extend the 16 block words to the 64-entry SHA-256 message schedule. -/
def sha256Schedule (w : List Nat) (t : Nat) : List Nat :=
  match t with
  | 0 => w
  | t + 1 =>
    let w' := sha256Schedule w t
    let i := w'.length
    w' ++ [w32 (ssig1 (w'.getD (i - 2) 0) + w'.getD (i - 7) 0 +
                ssig0 (w'.getD (i - 15) 0) + w'.getD (i - 16) 0)]

/-- One round of the SHA-256 compression function. -/
def sha256Round (w : List Nat) (t : Nat)
    (st : Nat × Nat × Nat × Nat × Nat × Nat × Nat × Nat) :
    Nat × Nat × Nat × Nat × Nat × Nat × Nat × Nat :=
  match st with
  | (a, b, c, d, e, f, g, h) =>
    let t1 := w32 (h + bsig1 e + sha256Ch e f g + sha256K.getD t 0 + w.getD t 0)
    let t2 := w32 (bsig0 a + sha256Maj a b c)
    (w32 (t1 + t2), a, b, c, w32 (d + t1), e, f, g)

/-- Convert four big-endian bytes into a 32-bit word. -/
def word32OfBytes (b0 b1 b2 b3 : Nat) : Nat :=
  (b0 <<< 24) ||| (b1 <<< 16) ||| (b2 <<< 8) ||| b3

/-- Group a 64-byte block into its 16 big-endian words. -/
def sha256BlockWords : List Nat → List Nat
  | b0 :: b1 :: b2 :: b3 :: rest => word32OfBytes b0 b1 b2 b3 :: sha256BlockWords rest
  | _ => []

/-- Process one 64-byte block, updating the eight-word hash state. -/
def sha256Compress (h : List Nat) (block : List Nat) : List Nat :=
  let w := sha256Schedule (sha256BlockWords block) 48
  let init := (h.getD 0 0, h.getD 1 0, h.getD 2 0, h.getD 3 0,
               h.getD 4 0, h.getD 5 0, h.getD 6 0, h.getD 7 0)
  let fin := (List.range 64).foldl (fun st t => sha256Round w t st) init
  match fin with
  | (a, b, c, d, e, f, g, hh) =>
    [w32 (h.getD 0 0 + a), w32 (h.getD 1 0 + b), w32 (h.getD 2 0 + c),
     w32 (h.getD 3 0 + d), w32 (h.getD 4 0 + e), w32 (h.getD 5 0 + f),
     w32 (h.getD 6 0 + g), w32 (h.getD 7 0 + hh)]

/-- Slice a list into consecutive pieces of `n` elements (the last piece may
be shorter); `fuel` bounds the recursion and is instantiated with the list
length. -/
def chunksEveryAux (n : Nat) : Nat → List α → List (List α)
  | 0, _ => []
  | _, [] => []
  | fuel + 1, l => l.take n :: chunksEveryAux n fuel (l.drop n)

/-- Slice a list into consecutive pieces of `n` elements, document order
preserved (the semantics of `for (i = 0; i < len; i += n) slice(i, i + n)`,
for `n ≥ 1`). -/
def chunksEvery (n : Nat) (l : List α) : List (List α) :=
  chunksEveryAux n l.length l

/-- Fold the SHA-256 compression function over the 64-byte blocks. -/
def sha256Blocks (h : List Nat) (bytes : List Nat) : List Nat :=
  (chunksEvery 64 bytes).foldl sha256Compress h

/-- Big-endian encoding of `n` into `len` bytes. -/
def bytesBE (len n : Nat) : List Nat :=
  match len with
  | 0 => []
  | len + 1 => (n >>> (8 * len)) % 256 :: bytesBE len n

/-- SHA-256 padding: append `0x80`, zero bytes, and the 64-bit big-endian
message bit length so that the total length is a multiple of 64. -/
def sha256Pad (msg : List Nat) : List Nat :=
  let l := msg.length
  let k := (119 - l % 64) % 64
  msg ++ [0x80] ++ List.replicate k 0 ++ bytesBE 8 (8 * l)

/-- SHA-256 of a byte list, as the list of 32 digest bytes. -/
def sha256 (msg : List Nat) : List Nat :=
  (sha256Blocks sha256H0 (sha256Pad msg)).flatMap (fun wd => bytesBE 4 wd)

/-- One lowercase hex digit. -/
def hexDigit (n : Nat) : Char :=
  if n < 10 then Char.ofNat (48 + n) else Char.ofNat (87 + n)

/-- Lowercase hex string of a byte list. -/
def bytesToHex (bytes : List Nat) : String :=
  ⟨bytes.flatMap (fun b => [hexDigit (b / 16 % 16), hexDigit (b % 16)])⟩

/-- UTF-8 encoding of one character (as byte values). -/
def utf8EncodeChar (c : Char) : List Nat :=
  let n := c.toNat
  if n < 0x80 then [n]
  else if n < 0x800 then
    [0xC0 ||| (n >>> 6), 0x80 ||| (n &&& 0x3F)]
  else if n < 0x10000 then
    [0xE0 ||| (n >>> 12), 0x80 ||| ((n >>> 6) &&& 0x3F), 0x80 ||| (n &&& 0x3F)]
  else
    [0xF0 ||| (n >>> 18), 0x80 ||| ((n >>> 12) &&& 0x3F),
     0x80 ||| ((n >>> 6) &&& 0x3F), 0x80 ||| (n &&& 0x3F)]

/-- UTF-8 encoding of a string. -/
def utf8Encode (s : String) : List Nat := s.data.flatMap utf8EncodeChar

/-- `createHash("sha256").update(s).digest("hex")` of Node's crypto module:
SHA-256 of the UTF-8 bytes, rendered as lowercase hex. -/
def sha256Hex (s : String) : String := bytesToHex (sha256 (utf8Encode s))


/-- ASCII case mapping of JavaScript `String.prototype.toLowerCase`
(the inputs of this development stay in the Basic Latin range). -/
def jsToLowerChar (c : Char) : Char :=
  if c = 'A' then 'a' else if c = 'B' then 'b' else if c = 'C' then 'c'
  else if c = 'D' then 'd' else if c = 'E' then 'e' else if c = 'F' then 'f'
  else if c = 'G' then 'g' else if c = 'H' then 'h' else if c = 'I' then 'i'
  else if c = 'J' then 'j' else if c = 'K' then 'k' else if c = 'L' then 'l'
  else if c = 'M' then 'm' else if c = 'N' then 'n' else if c = 'O' then 'o'
  else if c = 'P' then 'p' else if c = 'Q' then 'q' else if c = 'R' then 'r'
  else if c = 'S' then 's' else if c = 'T' then 't' else if c = 'U' then 'u'
  else if c = 'V' then 'v' else if c = 'W' then 'w' else if c = 'X' then 'x'
  else if c = 'Y' then 'y' else if c = 'Z' then 'z' else c

/-- `s.toLowerCase()` on ASCII strings. -/
def jsToLower (s : String) : String := ⟨s.data.map jsToLowerChar⟩

/-- `GraphExtractor.generateNodeId`: `"node_"` followed by the first 16 hex
characters of the SHA-256 of `lowercased(name) + "::" + type`. -/
def generateNodeId (name ty : String) : String :=
  "node_" ++ (sha256Hex (jsToLower name ++ "::" ++ ty)).take 16

/-- `GraphExtractor.generateEdgeId`. -/
def generateEdgeId (sourceId targetId relationType : String) : String :=
  "edge_" ++ sourceId ++ "_" ++ relationType ++ "_" ++ targetId

/-- A JavaScript number as far as this code distinguishes them: a finite
value (modelled as an exact rational) or a non-finite value
(`NaN`/`±Infinity`), which `Number.isFinite` rejects and `JSON.stringify`
serializes as `null`. -/
inductive JsNum where
  | finite (q : ℚ)
  | nonFinite
deriving DecidableEq

/-- JSON values (`JSON.stringify`-serializable JavaScript data): objects keep
their property insertion order as an association list. -/
inductive Json where
  | null
  | bool (b : Bool)
  | num (q : ℚ)
  | str (s : String)
  | arr (elems : List Json)
  | obj (fields : List (String × Json))

/-- Decimal digits of a natural number (`fuel` is instantiated with a bound
on the number of digits). -/
def natDigitsAux : Nat → Nat → List Char
  | 0, _ => []
  | fuel + 1, n => if n < 10 then [hexDigit n] else natDigitsAux fuel (n / 10) ++ [hexDigit (n % 10)]

/-- Decimal rendering of a natural number. -/
def natToDec (n : Nat) : String := ⟨natDigitsAux (n + 1) n⟩

/-- Decimal rendering of an integer. -/
def intToDec : Int → String
  | .ofNat n => natToDec n
  | .negSucc n => "-" ++ natToDec (n + 1)

/-- Rendering of a JSON number. JavaScript prints floats in their shortest
round-trip decimal form; the model renders the exact rational value
injectively (integers exactly as JavaScript does), which is the only
property the claims rely on. -/
def ratToDec (q : ℚ) : String :=
  if q.den = 1 then intToDec q.num else intToDec q.num ++ "/" ++ natToDec q.den

/-- `JSON.stringify` escaping for one character inside a string literal. -/
def escapeJsonChar (c : Char) : List Char :=
  if c = '"' then ['\\', '"']
  else if c = '\\' then ['\\', '\\']
  else if c = '\x08' then ['\\', 'b']
  else if c = '\x0c' then ['\\', 'f']
  else if c = '\n' then ['\\', 'n']
  else if c = '\r' then ['\\', 'r']
  else if c = '\t' then ['\\', 't']
  else if c.toNat < 32 then
    ['\\', 'u', hexDigit (c.toNat / 4096 % 16), hexDigit (c.toNat / 256 % 16),
     hexDigit (c.toNat / 16 % 16), hexDigit (c.toNat % 16)]
  else [c]

/-- `JSON.stringify` rendering of a string literal. -/
def quoteJson (s : String) : String :=
  ⟨'"' :: (s.data.flatMap escapeJsonChar ++ ['"'])⟩

/-- Comma-joined concatenation, as `Array.prototype.join(",")`. -/
def joinComma : List String → String
  | [] => ""
  | [s] => s
  | s :: rest => s ++ "," ++ joinComma rest

/-- Lexicographic comparison of character lists by code point, the order
`Array.prototype.sort()` applies to object keys (`a ≤ b`). -/
def lexLeB : List Char → List Char → Bool
  | [], _ => true
  | _ :: _, [] => false
  | a :: as, b :: bs =>
    if a.toNat < b.toNat then true
    else if b.toNat < a.toNat then false
    else lexLeB as bs

/-- Key comparison for object-field sorting. -/
def keyLeB (a b : String) : Bool := lexLeB a.data b.data

/-- Insert a keyed pair into a key-sorted list (insertion step of
`Object.keys(v).sort()` applied to association lists). -/
def insertFieldG (x : String × β) : List (String × β) → List (String × β)
  | [] => [x]
  | y :: ys => if keyLeB y.1 x.1 then y :: insertFieldG x ys else x :: y :: ys

/-- Sort an association list by key. -/
def sortFieldsG (fs : List (String × β)) : List (String × β) :=
  fs.foldr insertFieldG []

mutual

/-- `ChatbotService.stableStringify`: `JSON.stringify` with a replacer that
replaces every non-array object by a copy whose keys are sorted, so objects
are serialized with their keys sorted recursively while arrays keep their
order. Each field value is serialized and the `(key, rendered value)` pairs
are emitted in key-sorted order, which is the same output the replacer
produces. -/
def stableStringify : Json → String
  | .null => "null"
  | .bool true => "true"
  | .bool false => "false"
  | .num q => ratToDec q
  | .str s => quoteJson s
  | .arr xs => "[" ++ joinComma (stableStringifyList xs) ++ "]"
  | .obj fs =>
    "\x7b" ++
      joinComma ((sortFieldsG (stableStringifyFields fs)).map
        (fun kv => quoteJson kv.1 ++ ":" ++ kv.2)) ++
      "\x7d"

/-- Serialize each array element. -/
def stableStringifyList : List Json → List String
  | [] => []
  | x :: xs => stableStringify x :: stableStringifyList xs

/-- Serialize each object field value, keeping its key. -/
def stableStringifyFields : List (String × Json) → List (String × String)
  | [] => []
  | (k, v) :: fs => (k, stableStringify v) :: stableStringifyFields fs

end

/-- Distinctness of a key list. -/
def distinctKeysB : List String → Bool
  | [] => true
  | k :: ks => !(ks.contains k) && distinctKeysB ks

mutual

/-- Every object anywhere in the value has pairwise distinct keys (always
true of values produced by JavaScript objects, whose property keys are
unique). -/
def nodupKeysB : Json → Bool
  | .null => true
  | .bool _ => true
  | .num _ => true
  | .str _ => true
  | .arr xs => nodupKeysListB xs
  | .obj fs => distinctKeysB (fs.map Prod.fst) && nodupKeysFieldsB fs

/-- `nodupKeysB` over array elements. -/
def nodupKeysListB : List Json → Bool
  | [] => true
  | x :: xs => nodupKeysB x && nodupKeysListB xs

/-- `nodupKeysB` over object field values. -/
def nodupKeysFieldsB : List (String × Json) → Bool
  | [] => true
  | (_, v) :: fs => nodupKeysB v && nodupKeysFieldsB fs

end

mutual

/-- Equality of JSON values up to permutation of the keys of any object,
anywhere in the value; arrays keep their element order. -/
inductive KeyPerm : Json → Json → Prop
  | null : KeyPerm .null .null
  | bool (b : Bool) : KeyPerm (.bool b) (.bool b)
  | num (q : ℚ) : KeyPerm (.num q) (.num q)
  | str (s : String) : KeyPerm (.str s) (.str s)
  | arr {xs ys : List Json} : KeyPermList xs ys → KeyPerm (.arr xs) (.arr ys)
  | obj {fs gs gs' : List (String × Json)} :
      KeyPermFields fs gs' → List.Perm gs' gs → KeyPerm (.obj fs) (.obj gs)

/-- Pointwise `KeyPerm` on array elements. -/
inductive KeyPermList : List Json → List Json → Prop
  | nil : KeyPermList [] []
  | cons {x y : Json} {xs ys : List Json} :
      KeyPerm x y → KeyPermList xs ys → KeyPermList (x :: xs) (y :: ys)

/-- Pointwise `KeyPerm` on object fields (same keys in the same order). -/
inductive KeyPermFields : List (String × Json) → List (String × Json) → Prop
  | nil : KeyPermFields [] []
  | cons {k : String} {v w : Json} {fs gs : List (String × Json)} :
      KeyPerm v w → KeyPermFields fs gs → KeyPermFields ((k, v) :: fs) ((k, w) :: gs)

end

/-- Chat roles of the `ChatRoleSchema` zod enum. -/
inductive ChatRole where
  | system
  | user
  | assistant
deriving DecidableEq

/-- String form of a chat role (its JSON value). -/
def ChatRole.toStr : ChatRole → String
  | .system => "system"
  | .user => "user"
  | .assistant => "assistant"

/-- A chat message of the `ChatMessageSchema` zod schema. -/
structure ChatMessage where
  role : ChatRole
  content : String
deriving DecidableEq

/-- `navigation_intent` of the `SearchPlanSchema` zod schema. -/
structure NavigationIntent where
  target_route_key : Option String
  patient_name : Option String
deriving DecidableEq

/-- A search plan of the `SearchPlanSchema` zod schema. Optional fields are
`Option` (`none` = the property is absent / `undefined`). -/
structure SearchPlan where
  should_search : Bool
  search_query : String
  top_k : Option JsNum
  reason : Option String
  knowledge_source : Option String
  identified_entities : Option (List String)
  navigation_intent : Option NavigationIntent
deriving DecidableEq

/-- `Math.min` on two finite numbers that are integers. -/
def jsMathMin (a b : Int) : Int := if a ≤ b then a else b

/-- `Math.max` on two finite numbers that are integers. -/
def jsMathMax (a b : Int) : Int := if a ≤ b then b else a

/-- `Math.floor` on a finite number: the floor of its exact value
(`Rat.floor` is the mathematical floor, see `Rat.floor_def`). -/
def jsMathFloor (q : ℚ) : Int := Rat.floor q

/-- `normalizeSearchPlan` of `src/types/llm.ts`: clamp `top_k` to a safe
integer via `Math.min(maxTopK, Math.max(minTopK, Math.floor(rawTopK)))` when
`top_k` is a finite number, and `defaultTopK` otherwise; every other field is
copied. The JavaScript parameter defaults are `(5, 1, 8)` and every call site
uses them. -/
def normalizeSearchPlan (plan : SearchPlan) (defaultTopK minTopK maxTopK : Int) :
    SearchPlan :=
  let topK : Int :=
    match plan.top_k with
    | some (JsNum.finite q) => jsMathMin maxTopK (jsMathMax minTopK (jsMathFloor q))
    | _ => defaultTopK
  { plan with top_k := some (JsNum.finite (topK : ℚ)) }

/-- JSON value of a JavaScript number (`JSON.stringify` turns `NaN` and
`±Infinity` into `null`). -/
def JsNum.toJson : JsNum → Json
  | .finite q => .num q
  | .nonFinite => .null

/-- The runtime JSON value of a chat message. -/
def ChatMessage.toJson (m : ChatMessage) : Json :=
  .obj [("role", .str m.role.toStr), ("content", .str m.content)]

/-- The runtime JSON value of a `Record<string, string>`. -/
def recordToJson (r : List (String × String)) : Json :=
  .obj (r.map (fun kv => (kv.1, .str kv.2)))

/-- The runtime JSON value of a navigation intent (absent properties are
dropped by `JSON.stringify`). -/
def NavigationIntent.toJson (n : NavigationIntent) : Json :=
  .obj ((match n.target_route_key with
         | some s => [("target_route_key", Json.str s)]
         | none => []) ++
        (match n.patient_name with
         | some s => [("patient_name", Json.str s)]
         | none => []))

/-- The runtime JSON value of a search plan (absent properties are dropped by
`JSON.stringify`). -/
def SearchPlan.toJson (p : SearchPlan) : Json :=
  .obj ([("should_search", Json.bool p.should_search),
         ("search_query", Json.str p.search_query)] ++
        (match p.top_k with
         | some n => [("top_k", n.toJson)]
         | none => []) ++
        (match p.reason with
         | some s => [("reason", Json.str s)]
         | none => []) ++
        (match p.knowledge_source with
         | some s => [("knowledge_source", Json.str s)]
         | none => []) ++
        (match p.identified_entities with
         | some es => [("identified_entities", Json.arr (es.map Json.str))]
         | none => []) ++
        (match p.navigation_intent with
         | some n => [("navigation_intent", n.toJson)]
         | none => []))

/-- The object `{cacheVersion: "v2", messages, context, plan}` hashed by
`ChatbotService.processRagRequest` (`CACHE_VERSION = "v2"`). -/
def cacheRequestJson (messages : List ChatMessage) (context : List (String × String))
    (plan : SearchPlan) : Json :=
  .obj [("cacheVersion", .str "v2"),
        ("messages", .arr (messages.map ChatMessage.toJson)),
        ("context", recordToJson context),
        ("plan", plan.toJson)]

/-- The cache key of `ChatbotService.processRagRequest`: SHA-256 hex of the
stable serialization of `{cacheVersion, messages, context, plan}`. -/
def cacheKeyOf (messages : List ChatMessage) (context : List (String × String))
    (plan : SearchPlan) : String :=
  sha256Hex (stableStringify (cacheRequestJson messages context plan))

/-- A row as returned by `RagRepository.findByVector` (after the distance →
score mapping); `metadata` is carried as a payload the search logic never
inspects. -/
structure VectorHit where
  id : String
  path : String
  content : String
  screen : Option String
  metadata : Option String
  vectorScore : ℚ
deriving DecidableEq

/-- A row as returned by `RagRepository.findByText`. -/
structure TextHit where
  id : String
  path : String
  content : String
  screen : Option String
  metadata : Option String
  textScore : ℚ
deriving DecidableEq

/-- The `RagResult` record of `RagRepository`. -/
structure RagResult where
  id : String
  path : String
  content : String
  screen : Option String
  metadata : Option String
  vectorScore : Option ℚ
  textScore : Option ℚ
  combinedScore : ℚ
deriving DecidableEq

/-- `Map.prototype.set` on an association list: an existing key keeps its
position and gets the new value; a new key is appended (JavaScript `Map`
preserves insertion order). -/
def jsMapSet (m : List (String × α)) (k : String) (v : α) : List (String × α) :=
  match m with
  | [] => [(k, v)]
  | (k', v') :: rest => if k' = k then (k, v) :: rest else (k', v') :: jsMapSet rest k v

/-- `Map.prototype.get` on an association list. -/
def jsMapGet : List (String × α) → String → Option α
  | [], _ => none
  | (k', v) :: rest, k => if k' = k then some v else jsMapGet rest k

/-- `{...res, combinedScore}` for a vector hit. -/
def vectorHitToResult (v : VectorHit) (score : ℚ) : RagResult :=
  { id := v.id, path := v.path, content := v.content, screen := v.screen,
    metadata := v.metadata, vectorScore := some v.vectorScore, textScore := none,
    combinedScore := score }

/-- `{...res, combinedScore}` for a text hit. -/
def textHitToResult (t : TextHit) (score : ℚ) : RagResult :=
  { id := t.id, path := t.path, content := t.content, screen := t.screen,
    metadata := t.metadata, vectorScore := none, textScore := some t.textScore,
    combinedScore := score }

/-- One step of the vector phase of `RagRepository.hybridSearch`: insert the
vector hit at 0-based index `iv.1` with RRF score `1 / (60 + rank)`. -/
def mergeVectorStep (m : List (String × RagResult)) (iv : Nat × VectorHit) :
    List (String × RagResult) :=
  jsMapSet m iv.2.id (vectorHitToResult iv.2 (1 / (60 + (iv.1 + 1 : ℚ))))

/-- First phase of `RagRepository.hybridSearch`: seed the merged map with the
vector results, scored `1 / (60 + rank)` by 1-based rank. -/
def mergeVectorResults (vec : List VectorHit) : List (String × RagResult) :=
  vec.enum.foldl mergeVectorStep []

/-- One step of the text phase of `RagRepository.hybridSearch`: a document
already present gets its `textScore` set and the text RRF contribution added
to its `combinedScore`; a new document is inserted with the text contribution
alone. -/
def mergeTextStep (m : List (String × RagResult)) (it : Nat × TextHit) :
    List (String × RagResult) :=
  let rrfScore : ℚ := 1 / (60 + (it.1 + 1 : ℚ))
  match jsMapGet m it.2.id with
  | some existing =>
    jsMapSet m it.2.id
      { existing with textScore := some it.2.textScore,
                      combinedScore := existing.combinedScore + rrfScore }
  | none => jsMapSet m it.2.id (textHitToResult it.2 rrfScore)

/-- Second phase of `RagRepository.hybridSearch`: fold the text results into
the merged map. -/
def mergeTextResults (m0 : List (String × RagResult)) (text : List TextHit) :
    List (String × RagResult) :=
  text.enum.foldl mergeTextStep m0

/-- `Array.from(merged.values())` after both phases. -/
def hybridMerged (vec : List VectorHit) (text : List TextHit) : List RagResult :=
  (mergeTextResults (mergeVectorResults vec) text).map Prod.snd

/-- Stable descending insertion by `combinedScore` (one step). -/
def insertScoreDesc (x : RagResult) : List RagResult → List RagResult
  | [] => [x]
  | y :: ys => if x.combinedScore ≤ y.combinedScore then y :: insertScoreDesc x ys
               else x :: y :: ys

/-- `.sort((a, b) => b.combinedScore - a.combinedScore)`: a stable sort by
fused score descending (ECMAScript `Array.prototype.sort` is stable). -/
def sortScoreDesc (l : List RagResult) : List RagResult :=
  l.foldl (fun acc x => insertScoreDesc x acc) []

/-- `RagRepository.hybridSearch`, given the two store query results: RRF
fusion with constant 60, sorted by fused score descending, truncated to
`topK`. -/
def hybridSearch (vec : List VectorHit) (text : List TextHit) (topK : Nat) :
    List RagResult :=
  (sortScoreDesc (hybridMerged vec text)).take topK

/-- A cache row as consumed by the orchestrator (`findByHash` returns the
full row; only `response` is read on a hit). -/
structure CacheEntry where
  response : String
deriving DecidableEq

/-- Token usage of an LLM reply. -/
structure Usage where
  promptTokens : Nat
  completionTokens : Nat
  totalTokens : Nat
deriving DecidableEq

/-- An LLM chat-completion reply. -/
structure LlmReply where
  id : String
  content : String
  usage : Option Usage
deriving DecidableEq

/-- The `rag.results` entries of a `RagResponse`. -/
structure SlimResult where
  path : String
  content : String
  combinedScore : ℚ
deriving DecidableEq

/-- The `RagResponse` record returned by `processRagRequest`. -/
structure RagResponse where
  id : String
  content : String
  usage : Option Usage
  rag : Option (List SlimResult × SearchPlan)
deriving DecidableEq

/-- Externally observable effects of one `processRagRequest` run, in order. -/
inductive OrchestratorEvent where
  | planLlmCall (userMessage : String)
  | embeddingCall (text : String)
  | hybridSearchCall (query : String) (topK : JsNum) (screen : Option String)
  | graphContextCall (entities : List String)
  | completionLlmCall (systemPrompt : String)
  | incrementHitCountCall (hash : String)
  | cacheSaveCall (hash question response : String)
deriving DecidableEq

/-- Is the event an embedding-provider call? -/
def OrchestratorEvent.isEmbeddingCall : OrchestratorEvent → Bool
  | .embeddingCall _ => true
  | _ => false

/-- Is the event the final completion LLM call? -/
def OrchestratorEvent.isCompletionCall : OrchestratorEvent → Bool
  | .completionLlmCall _ => true
  | _ => false

/-- Is the event an `incrementHitCount` on the given hash? -/
def OrchestratorEvent.isIncrementHitOn (hash : String) : OrchestratorEvent → Bool
  | .incrementHitCountCall h => h == hash
  | _ => false

/-- External collaborators of `ChatbotService` (the planner LLM together with
its parse-or-fallback wrapper `analyzeRequest`, the cache repository, the
embedding provider, the document repository, the graph service, and the
completion LLM), modelled as pure oracles. -/
structure ChatbotEnv where
  analyze : String → SearchPlan
  findByHash : String → Option CacheEntry
  createEmbedding : String → List ℚ
  hybridSearch : String → List ℚ → JsNum → Option String → List RagResult
  graphContext : List String → Option String
  chatCompletion : String → List ChatMessage → LlmReply

/-- `[...messages].reverse().find(m => m.role === "user")?.content ?? ""`. -/
def lastUserMessage (messages : List ChatMessage) : String :=
  match messages.reverse.find? (fun m => m.role = ChatRole.user) with
  | some m => m.content
  | none => ""

/-- `ChatbotService.processRagRequest`, returning the response together with
the ordered trace of external calls it performed. The plan step (LLM call 1
plus `analyzeRequest`'s parse/fallback) is the oracle `env.analyze`. -/
def processRagRequest (env : ChatbotEnv) (messages : List ChatMessage)
    (context : List (String × String)) : RagResponse × List OrchestratorEvent :=
  let userMsg := lastUserMessage messages
  let searchPlan := env.analyze userMsg
  let effectivePlan := normalizeSearchPlan searchPlan 5 1 8
  let topK : JsNum :=
    match effectivePlan.top_k with
    | some n => n
    | none => .finite 5
  let cacheKey := cacheKeyOf messages context effectivePlan
  match env.findByHash cacheKey with
  | some cached =>
    ({ id := "cached", content := cached.response, usage := none, rag := none },
     [.planLlmCall userMsg, .incrementHitCountCall cacheKey])
  | none =>
    let searchStep :
        List SlimResult × String × List OrchestratorEvent :=
      if searchPlan.should_search then
        let embedding := env.createEmbedding searchPlan.search_query
        let screen := jsMapGet context "screen"
        let results := env.hybridSearch searchPlan.search_query embedding topK screen
        (results.map (fun r =>
           { path := r.path, content := r.content, combinedScore := r.combinedScore }),
         String.intercalate "\n\n" (results.map (fun r => r.content)),
         [.embeddingCall searchPlan.search_query,
          .hybridSearchCall searchPlan.search_query topK screen])
      else ([], "", [])
    let graphStep : String × List OrchestratorEvent :=
      match searchPlan.identified_entities with
      | some es =>
        if 0 < es.length then
          match env.graphContext es with
          | some g => (searchStep.2.1 ++ "\n\n" ++ g, [.graphContextCall es])
          | none => (searchStep.2.1, [.graphContextCall es])
        else (searchStep.2.1, [])
      | none => (searchStep.2.1, [])
    let systemPrompt :=
      "You are a helpful assistant. Use the following context to answer:\n" ++ graphStep.1
    let finalReply := env.chatCompletion systemPrompt messages
    ({ id := finalReply.id, content := finalReply.content, usage := finalReply.usage,
       rag := some (searchStep.1, effectivePlan) },
     [OrchestratorEvent.planLlmCall userMsg] ++ searchStep.2.2 ++ graphStep.2 ++
       [.completionLlmCall systemPrompt,
        .cacheSaveCall cacheKey userMsg finalReply.content])

/-- `String.prototype.lastIndexOf("\n\n", bound)`: the largest start index
`i ≤ bound` where the pattern occurs (forward scan, `i` is the running index
and `best` the last hit), `-1` when there is none. -/
def lastIndexOfNlNlAux : List Char → Nat → Nat → Int → Int
  | [], _, _, best => best
  | c :: rest, i, bound, best =>
    let best' :=
      if i ≤ bound ∧ c = '\n' ∧ rest.head? = some '\n' then (i : Int) else best
    lastIndexOfNlNlAux rest (i + 1) bound best'

/-- `content.lastIndexOf("\n\n", bound)`. -/
def lastIndexOfNlNl (s : List Char) (bound : Nat) : Int :=
  lastIndexOfNlNlAux s 0 bound (-1)

/-- `Array.prototype.lastIndexOf(target, fromIdx)` over a character array:
the largest array index `i ≤ fromIdx` holding `target`, `-1` when none. -/
def arrLastIndexOfAux : List Char → Char → Nat → Nat → Int → Int
  | [], _, _, _, best => best
  | c :: rest, target, i, bound, best =>
    let best' := if i ≤ bound ∧ c = target then (i : Int) else best
    arrLastIndexOfAux rest target (i + 1) bound best'

/-- `arr.lastIndexOf(target, fromIdx)`. -/
def arrLastIndexOf (arr : List Char) (target : Char) (fromIdx : Nat) : Int :=
  arrLastIndexOfAux arr target 0 fromIdx (-1)

/-- `content.match(/[。\n]/g)`: all sentence-boundary characters of the
content, in document order. -/
def sentenceMatches (s : List Char) : List Char :=
  s.filter (fun c => c = '。' || c = '\n')

/-- The embedding input computed by `RagEngine.ingestDocument`
(`MAX_EMBEDDING_CHARS = 6000`). Note that the sentence-boundary step applies
`Array.prototype.lastIndexOf` to the regex match array, so `lastSentence` is
an index into the array of boundary characters, not into the content string
(`?? -1` covers the `null` of a matchless regex, and a missing `"。"` also
yields `-1`). -/
def ingestEmbeddingInput (content : List Char) : List Char :=
  if content.length ≤ 6000 then content
  else
    let lastParagraph := lastIndexOfNlNl content 6000
    if lastParagraph > 3000 then content.take lastParagraph.toNat
    else
      let lastSentence := arrLastIndexOf (sentenceMatches content) '。' 6000
      if lastSentence > 3000 then content.take (lastSentence.toNat + 1)
      else content.take 6000

/-- The largest string index `i ≤ bound` holding a sentence-boundary
character (`。` or `\n`), `-1` when none. -/
def lastSentenceCharIdxAux : List Char → Nat → Nat → Int → Int
  | [], _, _, best => best
  | c :: rest, i, bound, best =>
    let best' := if i ≤ bound ∧ (c = '。' ∨ c = '\n') then (i : Int) else best
    lastSentenceCharIdxAux rest (i + 1) bound best'

/-- The position of the last sentence-boundary character at or before
`bound`. -/
def lastSentenceCharIdx (s : List Char) (bound : Nat) : Int :=
  lastSentenceCharIdxAux s 0 bound (-1)

/-- The embedding input as the specification describes it: the full content
when it fits in 6000 characters; else the prefix ending at the last paragraph
boundary (`\n\n`) at or before position 6000 when that position exceeds 3000;
else the prefix up to and including the last sentence-boundary character
(`。` or `\n`) at or before position 6000 when that position exceeds 3000;
else the first 6000 characters. -/
def specEmbeddingInput (content : List Char) : List Char :=
  if content.length ≤ 6000 then content
  else
    let lastParagraph := lastIndexOfNlNl content 6000
    if lastParagraph > 3000 then content.take lastParagraph.toNat
    else
      let lastSentence := lastSentenceCharIdx content 6000
      if lastSentence > 3000 then content.take (lastSentence.toNat + 1)
      else content.take 6000

/-- Sentence terminators of `GraphExtractor.splitLargeParagraph`
(`[.!?。！？]`). -/
def isTermChar (c : Char) : Bool :=
  c = '.' || c = '!' || c = '?' || c = '。' || c = '！' || c = '？'

/-- Whitespace as matched by the regex class `\s` (the common whitespace
characters; the inputs of this development use only these). -/
def isWsChar (c : Char) : Bool :=
  c = ' ' || c = '\t' || c = '\n' || c = '\r' || c = '\x0b' || c = '\x0c'

/-- `text.split(/\n\n+/)`: one pass over the text; `consuming` is true while
inside the newline run of the current separator (each separator is a maximal
run of two or more newlines, dropped from the output). -/
def paraSplitGo : Bool → List Char → List Char → List (List Char)
  | _, cur, [] => [cur.reverse]
  | consuming, cur, c :: rest =>
    if consuming && c = '\n' then paraSplitGo true cur rest
    else if c = '\n' && rest.head? = some '\n' then
      cur.reverse :: paraSplitGo true [] rest
    else paraSplitGo false (c :: cur) rest

/-- `text.split(/\n\n+/)`. -/
def splitParas (text : List Char) : List (List Char) := paraSplitGo false [] text

/-- `paragraph.split(/(?<=[.!?。！？])\s+/)`: one pass; `consuming` is true
while inside the whitespace run of the current separator (a maximal
whitespace run directly following a terminator, dropped from the output; the
terminator stays with the piece before it). -/
def sentSplitGo : Bool → List Char → List Char → List (List Char)
  | _, cur, [] => [cur.reverse]
  | consuming, cur, c :: rest =>
    if consuming && isWsChar c then sentSplitGo true cur rest
    else if isTermChar c &&
            (match rest.head? with | some w => isWsChar w | none => false) then
      (c :: cur).reverse :: sentSplitGo true [] rest
    else sentSplitGo false (c :: cur) rest

/-- `paragraph.split(/(?<=[.!?。！？])\s+/)`. -/
def splitSentences (p : List Char) : List (List Char) := sentSplitGo false [] p

/-- The sentence loop of `GraphExtractor.splitLargeParagraph`: pieces join
with a single space while they fit in the budget; an over-budget sentence is
hard-sliced. -/
def splitLargeGo (chunkSize : Nat) : List (List Char) → List Char → List (List Char)
  | [], cur => if cur.length > 0 then [cur] else []
  | s :: rest, cur =>
    if s.length > chunkSize then
      (if cur.length > 0 then [cur] else []) ++ chunksEvery chunkSize s ++
        splitLargeGo chunkSize rest []
    else if cur.length + s.length + 1 > chunkSize ∧ cur.length > 0 then
      cur :: splitLargeGo chunkSize rest s
    else splitLargeGo chunkSize rest (if cur = [] then s else cur ++ ' ' :: s)

/-- `GraphExtractor.splitLargeParagraph`. -/
def splitLargeParagraph (chunkSize : Nat) (para : List Char) : List (List Char) :=
  splitLargeGo chunkSize (splitSentences para) []

/-- The paragraph loop of `GraphExtractor.splitIntoChunks`: paragraphs join
with `"\n\n"` while they fit in the budget; an over-budget paragraph is
handed to `splitLargeParagraph`. -/
def splitChunksGo (chunkSize : Nat) : List (List Char) → List Char → List (List Char)
  | [], cur => if cur = [] then [] else [cur]
  | para :: rest, cur =>
    if para.length > chunkSize then
      (if cur.length > 0 then [cur] else []) ++ splitLargeParagraph chunkSize para ++
        splitChunksGo chunkSize rest []
    else if cur.length + para.length + 2 > chunkSize ∧ cur.length > 0 then
      cur :: splitChunksGo chunkSize rest para
    else splitChunksGo chunkSize rest (if cur = [] then para else cur ++ '\n' :: '\n' :: para)

/-- `GraphExtractor.splitIntoChunks` (the extractor calls it with chunk size
3000). -/
def splitIntoChunks (text : List Char) (chunkSize : Nat) : List (List Char) :=
  if text.length ≤ chunkSize then [text] else splitChunksGo chunkSize (splitParas text) []

/-- An entity of the extraction result. -/
structure ExtractedEntity where
  name : String
  type : String
  properties : Option (List (String × Json))

/-- A relation of the extraction result. -/
structure ExtractedRelation where
  source : String
  target : String
  relationType : String
  weight : Option ℚ

/-- A write performed against the graph store. -/
inductive GraphWrite where
  | node (id name type : String) (properties : List (String × Json))
      (embedding : Option (List ℚ))
  | edge (id sourceId targetId relationType : String) (weight : ℚ)

/-- Is the write a node upsert? -/
def GraphWrite.isNode : GraphWrite → Bool
  | .node _ _ _ _ _ => true
  | .edge _ _ _ _ _ => false

/-- Outcome of `buildGraphFromDocument`. -/
inductive BuildOutcome where
  | ok (nodesCreated edgesCreated : Nat)
  | dimensionMismatch (expected got : Nat)
deriving DecidableEq

/-- Result of the node-registration loop: the upserts performed so far, and
either the node count plus the `lowercased name → id` map, or the dimension
mismatch that aborted the loop. -/
inductive NodePhase where
  | done (writes : List GraphWrite) (nodesCreated : Nat)
      (nameToId : List (String × String))
  | failed (writes : List GraphWrite) (expected got : Nat)

/-- The node-registration loop of
`KnowledgeGraphService.buildGraphFromDocument`: per entity, compute the node
id, record the lowercased name in the map, throw when a produced embedding
has the wrong length (`if (embedding && embedding.length !== D)`), otherwise
upsert the node and count it. `embs` runs in step with the entities
(`undefined` past its end). -/
def buildNodesGo (D : Nat) : List ExtractedEntity → List (Option (List ℚ)) →
    List (String × String) → List GraphWrite → Nat → NodePhase
  | [], _, nameToId, writes, count => .done writes count nameToId
  | e :: es, embs, nameToId, writes, count =>
    let embedding := embs.head?.getD none
    let nodeId := generateNodeId e.name e.type
    let nameToId' := jsMapSet nameToId (jsToLower e.name) nodeId
    match embedding with
    | some v =>
      if v.length ≠ D then .failed writes D v.length
      else
        buildNodesGo D es embs.tail nameToId'
          (writes ++ [.node nodeId e.name e.type (e.properties.getD []) (some v)])
          (count + 1)
    | none =>
      buildNodesGo D es embs.tail nameToId'
        (writes ++ [.node nodeId e.name e.type (e.properties.getD []) none])
        (count + 1)

/-- The edge-registration loop of
`KnowledgeGraphService.buildGraphFromDocument`: resolve both endpoints in the
local map, skip the relation when either is falsy (`undefined` or the empty
string), otherwise upsert the edge (`weight ?? 1.0`) and count it. -/
def buildEdgesGo (nameToId : List (String × String)) :
    List ExtractedRelation → List GraphWrite → Nat → List GraphWrite × Nat
  | [], writes, count => (writes, count)
  | r :: rs, writes, count =>
    match jsMapGet nameToId (jsToLower r.source),
          jsMapGet nameToId (jsToLower r.target) with
    | some s, some t =>
      if s = "" || t = "" then buildEdgesGo nameToId rs writes count
      else
        buildEdgesGo nameToId rs
          (writes ++ [.edge (generateEdgeId s t r.relationType) s t r.relationType
                        (r.weight.getD 1)])
          (count + 1)
    | _, _ => buildEdgesGo nameToId rs writes count

/-- `KnowledgeGraphService.buildGraphFromDocument`, given the extraction
result and the per-entity embedding results (`none` = the provider is absent
or that entity's embedding call failed): the ordered list of store writes
performed, and the outcome. -/
def buildGraphFromDocument (D : Nat) (entities : List ExtractedEntity)
    (relations : List ExtractedRelation) (embeddings : List (Option (List ℚ))) :
    List GraphWrite × BuildOutcome :=
  match buildNodesGo D entities embeddings [] [] 0 with
  | .failed writes expected got => (writes, .dimensionMismatch expected got)
  | .done writes nodesCreated nameToId =>
    let edgePhase := buildEdgesGo nameToId relations writes 0
    (edgePhase.1, .ok nodesCreated edgePhase.2)

/-- A row of the `chatbot_cache` table (the columns `incrementHitCount`
touches or filters on, plus payload columns it must leave unchanged). -/
structure CacheRow where
  requestHash : String
  question : String
  response : String
  hitCount : Nat
  lastHitAt : Option Nat
deriving DecidableEq

/-- `CacheRepository.incrementHitCount`: the SQL
`UPDATE chatbot_cache SET hit_count = hit_count + 1, last_hit_at = now()
WHERE request_hash = hash` over an explicit table state (`now` is the server
timestamp). A `WHERE` matching no row updates nothing and is not an error. -/
def incrementHitCount (hash : String) (now : Nat) (table : List CacheRow) :
    List CacheRow :=
  table.map (fun r =>
    if r.requestHash = hash then
      { r with hitCount := r.hitCount + 1, lastHitAt := some now }
    else r)

/-- Concrete plan used by witnesses: `top_k = 3.5`. -/
def planWithTopKHalf : SearchPlan :=
  { should_search := true, search_query := "q", top_k := some (.finite (7/2)),
    reason := none, knowledge_source := none, identified_entities := none,
    navigation_intent := none }

/-- Concrete plan used by witnesses: no `top_k`. -/
def planWithoutTopK : SearchPlan :=
  { should_search := true, search_query := "q", top_k := none,
    reason := none, knowledge_source := none, identified_entities := none,
    navigation_intent := none }

/-- Concrete cache table used by witnesses. -/
def cacheTableFixture : List CacheRow :=
  [{ requestHash := "h1", question := "q1", response := "r1", hitCount := 2,
     lastHitAt := none },
   { requestHash := "h2", question := "q2", response := "r2", hitCount := 0,
     lastHitAt := some 7 }]

/-- Concrete orchestrator environment used by witnesses: the cache reports a
hit for every key. -/
def envAlwaysHit : ChatbotEnv :=
  { analyze := fun _ => planWithoutTopK,
    findByHash := fun _ => some { response := "saved answer" },
    createEmbedding := fun _ => [],
    hybridSearch := fun _ _ _ _ => [],
    graphContext := fun _ => none,
    chatCompletion := fun _ _ => { id := "x", content := "fresh", usage := none } }

/-- Concrete over-long document: 4000 `A`s, one sentence terminator `。` at
position 4000, then 2500 `B`s (6501 characters, no paragraph boundary). -/
def longContentFixture : List Char :=
  List.replicate 4000 'A' ++ '。' :: List.replicate 2500 'B'

/-- Pointwise sum of optional scores (absent = no contribution). -/
def optAdd : Option ℚ → Option ℚ → Option ℚ
  | some a, some b => some (a + b)
  | some a, none => some a
  | none, some b => some b
  | none, none => none

/-- The RRF contribution `1 / (60 + rank)` of `id` in an id list whose first
element has 1-based rank `k + 1`; `none` when `id` does not occur. -/
def rankContribFrom (k : Nat) : List String → String → Option ℚ
  | [], _ => none
  | x :: xs, id =>
    if x = id then some (1 / (60 + (k + 1 : ℚ))) else rankContribFrom (k + 1) xs id

/-- The RRF contribution of `id` at its 1-based rank in the id list, `none`
when absent. -/
def rankContrib (ids : List String) (id : String) : Option ℚ :=
  rankContribFrom 0 ids id

/-- The vector hits of the specification's hybrid-search example:
`[A, B]`. -/
def vecExample : List VectorHit :=
  [{ id := "A", path := "pa", content := "ca", screen := none, metadata := none,
     vectorScore := 9/10 },
   { id := "B", path := "pb", content := "cb", screen := none, metadata := none,
     vectorScore := 8/10 }]

/-- The text hits of the specification's hybrid-search example: `[B, C]`. -/
def textExample : List TextHit :=
  [{ id := "B", path := "pb", content := "cb", screen := none, metadata := none,
     textScore := 7/10 },
   { id := "C", path := "pc", content := "cc", screen := none, metadata := none,
     textScore := 6/10 }]

/-- Concatenation of chunks in order (what a partition of the text would
reassemble to). -/
def concatChunks (chunks : List (List Char)) : List Char :=
  chunks.foldr (fun a b => a ++ b) []

/-- Concrete text for the chunking counterexample: 3000 `A`s, a paragraph
separator, and one `B` (3003 characters). -/
def chunkTextFixture : List Char :=
  List.replicate 3000 'A' ++ '\n' :: '\n' :: ['B']

/-- The `lowercased(name) → id` map after the node loop has processed every
entity (later entities overwrite earlier ones of the same lowercased name,
as `Map.prototype.set` does). -/
def finalNameMap (entities : List ExtractedEntity) : List (String × String) :=
  entities.foldl
    (fun m e => jsMapSet m (jsToLower e.name) (generateNodeId e.name e.type)) []

/-- Does the relation resolve both endpoints to truthy ids in the local map
(the code's `if (!sourceId || !targetId) continue` test)? -/
def relationResolvable (m : List (String × String)) (r : ExtractedRelation) : Bool :=
  match jsMapGet m (jsToLower r.source), jsMapGet m (jsToLower r.target) with
  | some s, some t => !(s == "" || t == "")
  | _, _ => false

/-- The extraction-result entities of the specification's graph-build
example. -/
def entitiesExample : List ExtractedEntity :=
  [{ name := "Aspirin", type := "drug", properties := some [("dosage", .str "100mg")] },
   { name := "Fever", type := "disease", properties := none }]

/-- The extraction-result relations of the specification's graph-build
example: one resolvable relation and one with an unknown source. -/
def relationsExample : List ExtractedRelation :=
  [{ source := "Aspirin", target := "Fever", relationType := "treats",
     weight := some (9/10) },
   { source := "Unknown", target := "Fever", relationType := "related_to",
     weight := none }]

end RegularRag

namespace RegularRag

attribute [local semireducible] Rat.add Rat.sub Rat.mul Rat.inv Rat.ofScientific

/-- C9: `node_id(name, type)` equals `"node_"` followed by the first 16 hex
characters of `SHA-256(lowercased(name) + "::" + type)`; consequently it is
invariant under changing the case of the name — in particular
`node_id("Aspirin","drug") = node_id("aspirin","drug")` — and it
distinguishes different types:
`node_id("Aspirin","drug") ≠ node_id("Aspirin","chemical")`. -/
theorem claim_C9_node_id :
    (∀ name ty : String,
      generateNodeId name ty =
        "node_" ++ (sha256Hex (jsToLower name ++ "::" ++ ty)).take 16) ∧
    (∀ n₁ n₂ ty : String, jsToLower n₁ = jsToLower n₂ →
      generateNodeId n₁ ty = generateNodeId n₂ ty) ∧
    generateNodeId "Aspirin" "drug" = generateNodeId "aspirin" "drug" ∧
    generateNodeId "Aspirin" "drug" ≠ generateNodeId "Aspirin" "chemical" := by
  refine ⟨fun name ty => rfl, ?_, by decide, by decide⟩
  intro n₁ n₂ ty h
  simp only [generateNodeId, h]

/-- Witness for C9: the case-invariance component applied at a concrete
input. -/
theorem claim_C9_node_id_witness :
    jsToLower "ASPIRIN" = jsToLower "Aspirin" ∧
    generateNodeId "ASPIRIN" "drug" = generateNodeId "Aspirin" "drug" :=
  ⟨by decide, claim_C9_node_id.2.1 "ASPIRIN" "Aspirin" "drug" (by decide)⟩

/-- C6: `normalize_plan(p).top_k` always lies in `[1, 8]`; it equals
`floor(p.top_k)` clamped into `[1, 8]` when `p.top_k` is a finite number — in
particular it equals `floor(p.top_k)` when `p.top_k ∈ [1, 8]` — and it equals
5 when `p.top_k` is absent or non-finite. -/
theorem claim_C6_top_k_clamp (p : SearchPlan) :
    ∃ k : Int,
      (normalizeSearchPlan p 5 1 8).top_k = some (.finite (k : ℚ)) ∧
      1 ≤ k ∧ k ≤ 8 ∧
      (∀ q : ℚ, p.top_k = some (.finite q) → k = min 8 (max 1 ⌊q⌋)) ∧
      (∀ q : ℚ, p.top_k = some (.finite q) → 1 ≤ q → q ≤ 8 → k = ⌊q⌋) ∧
      ((p.top_k = none ∨ p.top_k = some .nonFinite) → k = 5) := by
  have hfloor : ∀ q : ℚ, jsMathFloor q = ⌊q⌋ := fun q => rfl
  have hminmax : ∀ x : Int, jsMathMin 8 (jsMathMax 1 x) = min 8 (max 1 x) := by
    intro x
    simp only [jsMathMin, jsMathMax, min_def, max_def]
  match hp : p.top_k with
  | none =>
    refine ⟨5, ?_, by omega, by omega, ?_, ?_, fun _ => rfl⟩
    · simp [normalizeSearchPlan, hp]
    · intro q hq; exact absurd hq (by simp)
    · intro q hq; exact absurd hq (by simp)
  | some .nonFinite =>
    refine ⟨5, ?_, by omega, by omega, ?_, ?_, fun _ => rfl⟩
    · simp [normalizeSearchPlan, hp]
    · intro q hq; exact absurd hq (by simp)
    · intro q hq; exact absurd hq (by simp)
  | some (.finite q) =>
    refine ⟨jsMathMin 8 (jsMathMax 1 (jsMathFloor q)), ?_, ?_, ?_, ?_, ?_, ?_⟩
    · simp [normalizeSearchPlan, hp]
    · simp only [jsMathMin, jsMathMax]; split_ifs <;> omega
    · simp only [jsMathMin, jsMathMax]; split_ifs <;> omega
    · intro q' hq'
      simp only [Option.some.injEq, JsNum.finite.injEq] at hq'
      subst hq'
      rw [hfloor, hminmax]
    · intro q' hq' h1 h8
      simp only [Option.some.injEq, JsNum.finite.injEq] at hq'
      subst hq'
      have hf1 : (1 : Int) ≤ ⌊q⌋ := by
        rw [Int.le_floor]
        exact_mod_cast h1
      have hf8 : ⌊q⌋ ≤ 8 := by
        have h := Int.floor_le_floor h8
        simpa using h
      rw [hfloor, hminmax]
      simp only [min_def, max_def]
      split_ifs <;> omega
    · rintro (h | h) <;> exact absurd h (by simp)

/-- Witness for C6: the clamp evaluated at the concrete plan with
`top_k = 3.5`, giving `floor(3.5) = 3`. -/
theorem claim_C6_top_k_clamp_witness :
    (normalizeSearchPlan planWithTopKHalf 5 1 8).top_k = some (.finite 3) := by
  obtain ⟨k, hk, -, -, hfin, -, -⟩ := claim_C6_top_k_clamp planWithTopKHalf
  have hq : planWithTopKHalf.top_k = some (.finite (7/2)) := rfl
  have h3 : k = 3 := by
    have h := hfin (7/2) hq
    norm_num at h
    omega
  rw [h3] at hk
  simpa using hk

/-- C10: `increment_hit_count(hash)` leaves the table length unchanged (no
row is created); when no row carries `hash` the table is unchanged; a row
carrying `hash` gets `hit_count + 1` and `last_hit_at` set to the server
time, and every other row is returned unchanged. -/
theorem claim_C10_increment_hit_count (hash : String) (now : Nat)
    (table : List CacheRow) :
    (incrementHitCount hash now table).length = table.length ∧
    ((∀ r ∈ table, r.requestHash ≠ hash) → incrementHitCount hash now table = table) ∧
    (∀ i : Nat, ∀ hi : i < table.length,
      (table[i].requestHash = hash →
        (incrementHitCount hash now table)[i]? =
          some { table[i] with hitCount := table[i].hitCount + 1,
                               lastHitAt := some now }) ∧
      (table[i].requestHash ≠ hash →
        (incrementHitCount hash now table)[i]? = some table[i])) := by
  refine ⟨by simp [incrementHitCount], ?_, ?_⟩
  · intro h
    have : ∀ r ∈ table,
        (if r.requestHash = hash then
          { r with hitCount := r.hitCount + 1, lastHitAt := some now }
         else r) = r := by
      intro r hr
      rw [if_neg (h r hr)]
    calc incrementHitCount hash now table
        = table.map id := List.map_congr_left this
      _ = table := List.map_id table
  · intro i hi
    constructor
    · intro hmatch
      simp [incrementHitCount, List.getElem?_map, List.getElem?_eq_getElem hi, hmatch]
    · intro hmatch
      simp [incrementHitCount, List.getElem?_map, List.getElem?_eq_getElem hi,
        if_neg hmatch]

/-- Witness for C10: in the concrete two-row table, incrementing `"h1"`
bumps row 0 and keeps row 1, and incrementing an absent hash leaves the
table unchanged. -/
theorem claim_C10_increment_hit_count_witness :
    (incrementHitCount "h1" 42 cacheTableFixture)[0]? =
      some { requestHash := "h1", question := "q1", response := "r1",
             hitCount := 3, lastHitAt := some 42 } ∧
    (incrementHitCount "h1" 42 cacheTableFixture)[1]? =
      some { requestHash := "h2", question := "q2", response := "r2",
             hitCount := 0, lastHitAt := some 7 } ∧
    incrementHitCount "nope" 42 cacheTableFixture = cacheTableFixture := by
  obtain ⟨-, -, hidx⟩ := claim_C10_increment_hit_count "h1" 42 cacheTableFixture
  obtain ⟨-, hnone, -⟩ := claim_C10_increment_hit_count "nope" 42 cacheTableFixture
  refine ⟨?_, ?_, hnone (by decide)⟩
  · exact (hidx 0 (by decide)).1 (by decide)
  · exact (hidx 1 (by decide)).2 (by decide)

/-- C4: when the computed cache key is present in the cache,
`process_rag_request` calls `increment_hit_count` exactly once on that key,
returns `{id: "cached", content: entry.response}`, and performs no embedding
call and no completion-LLM call after the plan step. -/
theorem claim_C4_cache_hit (env : ChatbotEnv) (messages : List ChatMessage)
    (context : List (String × String)) (entry : CacheEntry)
    (hhit : env.findByHash (cacheKeyOf messages context
      (normalizeSearchPlan (env.analyze (lastUserMessage messages)) 5 1 8)) =
        some entry) :
    (processRagRequest env messages context).1 =
      { id := "cached", content := entry.response, usage := none, rag := none } ∧
    (processRagRequest env messages context).2 =
      [.planLlmCall (lastUserMessage messages),
       .incrementHitCountCall (cacheKeyOf messages context
         (normalizeSearchPlan (env.analyze (lastUserMessage messages)) 5 1 8))] ∧
    ((processRagRequest env messages context).2.countP
      (OrchestratorEvent.isIncrementHitOn (cacheKeyOf messages context
        (normalizeSearchPlan (env.analyze (lastUserMessage messages)) 5 1 8)))) = 1 ∧
    ((processRagRequest env messages context).2.countP
      OrchestratorEvent.isEmbeddingCall) = 0 ∧
    ((processRagRequest env messages context).2.countP
      OrchestratorEvent.isCompletionCall) = 0 := by
  simp [processRagRequest, hhit, List.countP_cons, OrchestratorEvent.isIncrementHitOn,
    OrchestratorEvent.isEmbeddingCall, OrchestratorEvent.isCompletionCall]

/-- Witness for C4: the always-hit environment on a concrete request. -/
theorem claim_C4_cache_hit_witness :
    (processRagRequest envAlwaysHit [] []).1 =
      { id := "cached", content := "saved answer", usage := none, rag := none } ∧
    ((processRagRequest envAlwaysHit [] []).2.countP
      OrchestratorEvent.isEmbeddingCall) = 0 := by
  have h := claim_C4_cache_hit envAlwaysHit [] [] { response := "saved answer" } rfl
  exact ⟨h.1, h.2.2.2.1⟩

theorem filter_replicate_of_neg {α : Type} (p : α → Bool) (a : α) (h : p a = false)
    (n : Nat) : (List.replicate n a).filter p = [] := by
  induction n with
  | zero => rfl
  | succ n ih => simp [List.replicate_succ, List.filter_cons, h, ih]

theorem lastIndexOfNlNlAux_of_not_mem (s : List Char) :
    ∀ (i bound : Nat) (best : Int), '\n' ∉ s →
      lastIndexOfNlNlAux s i bound best = best := by
  induction s with
  | nil => intro i bound best _; rfl
  | cons c rest ih =>
    intro i bound best h
    have hcond : ¬(i ≤ bound ∧ c = '\n' ∧ rest.head? = some '\n') := by
      rintro ⟨-, hc, -⟩
      exact h (by simp [hc])
    simp only [lastIndexOfNlNlAux, if_neg hcond]
    exact ih _ _ _ (fun hm => h (List.mem_cons_of_mem _ hm))

theorem lastSentenceCharIdxAux_of_none (s : List Char) :
    ∀ (i bound : Nat) (best : Int), (∀ c ∈ s, ¬(c = '。' ∨ c = '\n')) →
      lastSentenceCharIdxAux s i bound best = best := by
  induction s with
  | nil => intro i bound best _; rfl
  | cons c rest ih =>
    intro i bound best h
    have hcond : ¬(i ≤ bound ∧ (c = '。' ∨ c = '\n')) := by
      rintro ⟨-, hc⟩
      exact h c (List.mem_cons_self c rest) hc
    simp only [lastSentenceCharIdxAux, if_neg hcond]
    exact ih _ _ _ (fun d hd => h d (List.mem_cons_of_mem _ hd))

theorem lastSentenceCharIdxAux_cons (c : Char) (rest : List Char) (i bound : Nat)
    (best : Int) :
    lastSentenceCharIdxAux (c :: rest) i bound best =
      lastSentenceCharIdxAux rest (i + 1) bound
        (if i ≤ bound ∧ (c = '。' ∨ c = '\n') then (i : Int) else best) := rfl

theorem lastSentenceCharIdxAux_append (l r : List Char) :
    ∀ (i bound : Nat) (best : Int),
      lastSentenceCharIdxAux (l ++ r) i bound best =
        lastSentenceCharIdxAux r (i + l.length) bound
          (lastSentenceCharIdxAux l i bound best) := by
  induction l with
  | nil => intro i bound best; simp [lastSentenceCharIdxAux]
  | cons c rest ih =>
    intro i bound best
    rw [List.cons_append, lastSentenceCharIdxAux_cons, ih, lastSentenceCharIdxAux_cons,
      List.length_cons]
    congr 1
    omega

/-- C2: the claim is the intended truncation rule, but the code's
sentence-boundary branch computes
`content.match(/[。\n]/g)?.lastIndexOf("。", 6000)`, an
`Array.prototype.lastIndexOf` over the array of boundary characters: the
resulting index counts boundary characters instead of string positions (and
`"\n"` is never the search target). On 4000 `A`s + `。` + 2500 `B`s the code
hard-slices to 6000 characters while the specified rule truncates after the
`。` at position 4000; the spec-side rule is `specEmbeddingInput`. -/
theorem claim_C2_embedding_truncation :
    ingestEmbeddingInput longContentFixture = longContentFixture.take 6000 ∧
    specEmbeddingInput longContentFixture = longContentFixture.take 4001 ∧
    ingestEmbeddingInput longContentFixture ≠ specEmbeddingInput longContentFixture := by
  have hlen : longContentFixture.length = 6501 := by
    rw [longContentFixture]
    simp only [List.length_append, List.length_cons, List.length_replicate]
  have hnl : '\n' ∉ longContentFixture := by
    intro hm
    rw [longContentFixture] at hm
    simp only [List.mem_append, List.mem_cons, List.mem_replicate] at hm
    rcases hm with ⟨-, h⟩ | h | ⟨-, h⟩ <;> exact absurd h (by decide)
  have hpara : lastIndexOfNlNl longContentFixture 6000 = -1 :=
    lastIndexOfNlNlAux_of_not_mem _ 0 6000 (-1) hnl
  have hmatches : sentenceMatches longContentFixture = ['。'] := by
    rw [sentenceMatches, longContentFixture, List.filter_append, List.filter_cons]
    rw [filter_replicate_of_neg _ _ (by decide), filter_replicate_of_neg _ _ (by decide)]
    rfl
  have hnotshort : ¬(longContentFixture.length ≤ 6000) := by
    rw [hlen]; decide
  have harr : arrLastIndexOf ['。'] '。' 6000 = 0 := by decide
  have h4A : ∀ c ∈ List.replicate 4000 'A', ¬(c = '。' ∨ c = '\n') := by
    intro c hc
    rw [List.eq_of_mem_replicate hc]
    decide
  have h25B : ∀ c ∈ List.replicate 2500 'B', ¬(c = '。' ∨ c = '\n') := by
    intro c hc
    rw [List.eq_of_mem_replicate hc]
    decide
  have hsentSpec : lastSentenceCharIdx longContentFixture 6000 = 4000 := by
    rw [lastSentenceCharIdx, longContentFixture, lastSentenceCharIdxAux_append,
      lastSentenceCharIdxAux_of_none (List.replicate 4000 'A') 0 6000 (-1) h4A,
      lastSentenceCharIdxAux_cons,
      lastSentenceCharIdxAux_of_none _ _ _ _ h25B]
    simp only [List.length_replicate, Nat.zero_add]
    norm_num
  have hcode : ingestEmbeddingInput longContentFixture = longContentFixture.take 6000 := by
    unfold ingestEmbeddingInput
    rw [if_neg hnotshort, hpara, if_neg (by decide : ¬((-1 : Int) > 3000)), hmatches,
      harr, if_neg (by decide : ¬((0 : Int) > 3000))]
  have hspec : specEmbeddingInput longContentFixture = longContentFixture.take 4001 := by
    unfold specEmbeddingInput
    rw [if_neg hnotshort, hpara, if_neg (by decide : ¬((-1 : Int) > 3000)), hsentSpec,
      if_pos (by decide : (4000 : Int) > 3000)]
    have ht : ((4000 : Int).toNat + 1) = 4001 := by decide
    rw [ht]
  refine ⟨hcode, hspec, ?_⟩
  rw [hcode, hspec]
  intro h
  have hlen2 := congrArg List.length h
  rw [List.length_take, List.length_take, hlen] at hlen2
  omega

theorem buildNodesGo_nil (D : Nat) (embs : List (Option (List ℚ)))
    (nameToId : List (String × String)) (writes : List GraphWrite) (count : Nat) :
    buildNodesGo D [] embs nameToId writes count = .done writes count nameToId := rfl

theorem buildNodesGo_cons_none (D : Nat) (e : ExtractedEntity)
    (es : List ExtractedEntity) (embs : List (Option (List ℚ)))
    (nameToId : List (String × String)) (writes : List GraphWrite) (count : Nat)
    (h : embs.head?.getD none = none) :
    buildNodesGo D (e :: es) embs nameToId writes count =
      buildNodesGo D es embs.tail
        (jsMapSet nameToId (jsToLower e.name) (generateNodeId e.name e.type))
        (writes ++ [.node (generateNodeId e.name e.type) e.name e.type
          (e.properties.getD []) none])
        (count + 1) := by
  simp only [buildNodesGo, h]

theorem buildNodesGo_cons_some (D : Nat) (e : ExtractedEntity)
    (es : List ExtractedEntity) (embs : List (Option (List ℚ)))
    (nameToId : List (String × String)) (writes : List GraphWrite) (count : Nat)
    (v : List ℚ) (h : embs.head?.getD none = some v) :
    buildNodesGo D (e :: es) embs nameToId writes count =
      (if v.length ≠ D then .failed writes D v.length
       else
        buildNodesGo D es embs.tail
          (jsMapSet nameToId (jsToLower e.name) (generateNodeId e.name e.type))
          (writes ++ [.node (generateNodeId e.name e.type) e.name e.type
            (e.properties.getD []) (some v)])
          (count + 1)) := by
  simp only [buildNodesGo, h]

theorem buildEdgesGo_nil (nameToId : List (String × String))
    (writes : List GraphWrite) (count : Nat) :
    buildEdgesGo nameToId [] writes count = (writes, count) := rfl

theorem buildEdgesGo_cons_skip_src (nameToId : List (String × String))
    (r : ExtractedRelation) (rs : List ExtractedRelation)
    (writes : List GraphWrite) (count : Nat)
    (hs : jsMapGet nameToId (jsToLower r.source) = none) :
    buildEdgesGo nameToId (r :: rs) writes count =
      buildEdgesGo nameToId rs writes count := by
  simp only [buildEdgesGo, hs]

theorem buildEdgesGo_cons_skip_tgt (nameToId : List (String × String))
    (r : ExtractedRelation) (rs : List ExtractedRelation)
    (writes : List GraphWrite) (count : Nat) (s : String)
    (hs : jsMapGet nameToId (jsToLower r.source) = some s)
    (ht : jsMapGet nameToId (jsToLower r.target) = none) :
    buildEdgesGo nameToId (r :: rs) writes count =
      buildEdgesGo nameToId rs writes count := by
  simp only [buildEdgesGo, hs, ht]

theorem buildEdgesGo_cons_skip_empty (nameToId : List (String × String))
    (r : ExtractedRelation) (rs : List ExtractedRelation)
    (writes : List GraphWrite) (count : Nat) (s t : String)
    (hs : jsMapGet nameToId (jsToLower r.source) = some s)
    (ht : jsMapGet nameToId (jsToLower r.target) = some t)
    (hc : (s = "" || t = "") = true) :
    buildEdgesGo nameToId (r :: rs) writes count =
      buildEdgesGo nameToId rs writes count := by
  simp only [buildEdgesGo, hs, ht]
  rw [if_pos hc]

theorem buildEdgesGo_cons_edge (nameToId : List (String × String))
    (r : ExtractedRelation) (rs : List ExtractedRelation)
    (writes : List GraphWrite) (count : Nat) (s t : String)
    (hs : jsMapGet nameToId (jsToLower r.source) = some s)
    (ht : jsMapGet nameToId (jsToLower r.target) = some t)
    (hc : (s = "" || t = "") = false) :
    buildEdgesGo nameToId (r :: rs) writes count =
      buildEdgesGo nameToId rs
        (writes ++ [.edge (generateEdgeId s t r.relationType) s t r.relationType
          (r.weight.getD 1)])
        (count + 1) := by
  simp only [buildEdgesGo, hs, ht]
  rw [if_neg (by simp [hc])]

theorem buildNodesGo_failed_writes (D : Nat) :
    ∀ (ents : List ExtractedEntity) (embs : List (Option (List ℚ)))
      (nameToId : List (String × String)) (writes : List GraphWrite) (count : Nat)
      (writes' : List GraphWrite) (e g : Nat),
      buildNodesGo D ents embs nameToId writes count = .failed writes' e g →
      (∀ w ∈ writes, w.isNode = true) →
      (∀ w ∈ writes', w.isNode = true) ∧ writes'.length < writes.length + ents.length := by
  intro ents
  induction ents with
  | nil =>
    intro embs nameToId writes count writes' e g hrun _
    rw [buildNodesGo_nil] at hrun
    cases hrun
  | cons ent es ih =>
    intro embs nameToId writes count writes' e g hrun hw
    match hemb : embs.head?.getD none with
    | none =>
      rw [buildNodesGo_cons_none D ent es embs nameToId writes count hemb] at hrun
      have hw' : ∀ w ∈ writes ++
          [GraphWrite.node (generateNodeId ent.name ent.type) ent.name ent.type
            (ent.properties.getD []) none], w.isNode = true := by
        intro w hmem
        rcases List.mem_append.mp hmem with hmem | hmem
        · exact hw w hmem
        · simp only [List.mem_singleton] at hmem
          subst hmem
          rfl
      obtain ⟨h1, h2⟩ := ih _ _ _ _ _ _ _ hrun hw'
      refine ⟨h1, ?_⟩
      simp only [List.length_append, List.length_cons, List.length_nil] at h2 ⊢
      omega
    | some v =>
      rw [buildNodesGo_cons_some D ent es embs nameToId writes count v hemb] at hrun
      by_cases hvd : v.length ≠ D
      · rw [if_pos hvd] at hrun
        cases hrun
        refine ⟨hw, ?_⟩
        simp only [List.length_cons]
        omega
      · rw [if_neg hvd] at hrun
        have hw' : ∀ w ∈ writes ++
            [GraphWrite.node (generateNodeId ent.name ent.type) ent.name ent.type
              (ent.properties.getD []) (some v)], w.isNode = true := by
          intro w hmem
          rcases List.mem_append.mp hmem with hmem | hmem
          · exact hw w hmem
          · simp only [List.mem_singleton] at hmem
            subst hmem
            rfl
        obtain ⟨h1, h2⟩ := ih _ _ _ _ _ _ _ hrun hw'
        refine ⟨h1, ?_⟩
        simp only [List.length_append, List.length_cons, List.length_nil] at h2 ⊢
        omega

/-- Counterexample for C3: with D = 3 and two extracted entities whose
embeddings are `[0.1, 0.2, 0.3]` and the mismatched `[1, 2]`, the build fails
with the dimension mismatch only after the first entity's node has been
upserted: the graph store is *not* unchanged. -/
theorem claim_C3_counterexample :
    buildGraphFromDocument 3 entitiesExample [] [some [1/10, 2/10, 3/10], some [1, 2]] =
      ([GraphWrite.node (generateNodeId "Aspirin" "drug") "Aspirin" "drug"
          [("dosage", .str "100mg")] (some [1/10, 2/10, 3/10])],
       .dimensionMismatch 3 2) ∧
    ([GraphWrite.node (generateNodeId "Aspirin" "drug") "Aspirin" "drug"
        [("dosage", .str "100mg")] (some [1/10, 2/10, 3/10])] : List GraphWrite) ≠ [] := by
  exact ⟨rfl, by simp⟩

/-- C3 (amended): when `build_graph_from_document` fails with
`DimensionMismatch`, the check has happened inside the node loop, before any
edge write and before the offending entity's own node write — every write
already performed is a node upsert for an entity strictly before the
offending one, and there are fewer such writes than entities. The store is
unchanged only when the offending entity is the first one; the original
claim's "the graph store is unchanged ... for every position of the
offending entity" fails for later positions. -/
theorem claim_C3_dimension_mismatch_writes (D : Nat)
    (entities : List ExtractedEntity) (relations : List ExtractedRelation)
    (embeddings : List (Option (List ℚ))) (writes : List GraphWrite)
    (expected got : Nat)
    (hrun : buildGraphFromDocument D entities relations embeddings =
      (writes, .dimensionMismatch expected got)) :
    (∀ w ∈ writes, w.isNode = true) ∧ writes.length < entities.length := by
  unfold buildGraphFromDocument at hrun
  match hnodes : buildNodesGo D entities embeddings [] [] 0 with
  | .done ws n m =>
    rw [hnodes] at hrun
    simp only [Prod.mk.injEq] at hrun
    cases hrun.2
  | .failed ws e g =>
    rw [hnodes] at hrun
    simp only [Prod.mk.injEq, BuildOutcome.dimensionMismatch.injEq] at hrun
    obtain ⟨hws, -, -⟩ := hrun
    subst hws
    have h := buildNodesGo_failed_writes D entities embeddings [] [] 0 ws e g hnodes
      (by intro w hw; cases hw)
    simpa using h

/-- Witness for C3 (amended), at the counterexample input. -/
theorem claim_C3_dimension_mismatch_writes_witness :
    (∀ w ∈ (buildGraphFromDocument 3 entitiesExample []
        [some [1/10, 2/10, 3/10], some [1, 2]]).1, w.isNode = true) ∧
    (buildGraphFromDocument 3 entitiesExample []
        [some [1/10, 2/10, 3/10], some [1, 2]]).1.length < entitiesExample.length := by
  have h := claim_C3_dimension_mismatch_writes 3 entitiesExample []
    [some [1/10, 2/10, 3/10], some [1, 2]]
    [GraphWrite.node (generateNodeId "Aspirin" "drug") "Aspirin" "drug"
      [("dosage", .str "100mg")] (some [1/10, 2/10, 3/10])] 3 2 rfl
  exact h

theorem buildNodesGo_ok (D : Nat) :
    ∀ (ents : List ExtractedEntity) (embs : List (Option (List ℚ)))
      (nameToId : List (String × String)) (writes : List GraphWrite) (count : Nat),
      (∀ emb ∈ embs, ∀ v, emb = some v → v.length = D) →
      ∃ ws : List GraphWrite,
        buildNodesGo D ents embs nameToId writes count =
          .done (writes ++ ws) (count + ents.length)
            (ents.foldl (fun m e =>
              jsMapSet m (jsToLower e.name) (generateNodeId e.name e.type)) nameToId) ∧
        (∀ w ∈ ws, w.isNode = true) ∧
        ws.length = ents.length := by
  intro ents
  induction ents with
  | nil =>
    intro embs nameToId writes count _
    exact ⟨[], by simp [buildNodesGo_nil], by simp, by simp⟩
  | cons ent es ih =>
    intro embs nameToId writes count hok
    cases embs with
    | nil =>
      obtain ⟨ws, h1, h2, h3⟩ :=
        ih [] (jsMapSet nameToId (jsToLower ent.name) (generateNodeId ent.name ent.type))
          (writes ++ [.node (generateNodeId ent.name ent.type) ent.name ent.type
            (ent.properties.getD []) none])
          (count + 1) (by intro emb h; cases h)
      refine ⟨.node (generateNodeId ent.name ent.type) ent.name ent.type
        (ent.properties.getD []) none :: ws, ?_, ?_, ?_⟩
      · rw [buildNodesGo_cons_none D ent es [] nameToId writes count rfl]
        simp only [List.tail_nil]
        rw [h1]
        congr 1
        · simp
        · simp only [List.length_cons]
          omega
      · intro w hw
        rcases List.mem_cons.mp hw with h | h
        · subst h; rfl
        · exact h2 w h
      · simp [h3]
    | cons emb tail =>
      have htl : ∀ e ∈ tail, ∀ v, e = some v → v.length = D :=
        fun e he => hok e (List.mem_cons_of_mem _ he)
      cases emb with
      | none =>
        obtain ⟨ws, h1, h2, h3⟩ :=
          ih tail (jsMapSet nameToId (jsToLower ent.name) (generateNodeId ent.name ent.type))
            (writes ++ [.node (generateNodeId ent.name ent.type) ent.name ent.type
              (ent.properties.getD []) none])
            (count + 1) htl
        refine ⟨.node (generateNodeId ent.name ent.type) ent.name ent.type
          (ent.properties.getD []) none :: ws, ?_, ?_, ?_⟩
        · rw [buildNodesGo_cons_none D ent es (none :: tail) nameToId writes count rfl]
          simp only [List.tail_cons]
          rw [h1]
          congr 1
          · simp
          · simp only [List.length_cons]
            omega
        · intro w hw
          rcases List.mem_cons.mp hw with h | h
          · subst h; rfl
          · exact h2 w h
        · simp [h3]
      | some v =>
        have hv : v.length = D := hok (some v) (List.mem_cons_self _ _) v rfl
        obtain ⟨ws, h1, h2, h3⟩ :=
          ih tail (jsMapSet nameToId (jsToLower ent.name) (generateNodeId ent.name ent.type))
            (writes ++ [.node (generateNodeId ent.name ent.type) ent.name ent.type
              (ent.properties.getD []) (some v)])
            (count + 1) htl
        refine ⟨.node (generateNodeId ent.name ent.type) ent.name ent.type
          (ent.properties.getD []) (some v) :: ws, ?_, ?_, ?_⟩
        · rw [buildNodesGo_cons_some D ent es (some v :: tail) nameToId writes count v rfl,
            if_neg (by omega)]
          simp only [List.tail_cons]
          rw [h1]
          congr 1
          · simp
          · simp only [List.length_cons]
            omega
        · intro w hw
          rcases List.mem_cons.mp hw with h | h
          · subst h; rfl
          · exact h2 w h
        · simp [h3]

theorem buildEdgesGo_spec (m : List (String × String)) :
    ∀ (rels : List ExtractedRelation) (writes : List GraphWrite) (count : Nat),
      ∃ ws : List GraphWrite,
        buildEdgesGo m rels writes count =
          (writes ++ ws, count + (rels.filter (relationResolvable m)).length) ∧
        (∀ w ∈ ws, w.isNode = false) ∧
        ws.length = (rels.filter (relationResolvable m)).length := by
  intro rels
  induction rels with
  | nil =>
    intro writes count
    exact ⟨[], by simp [buildEdgesGo_nil], by simp, by simp⟩
  | cons r rs ih =>
    intro writes count
    cases hs : jsMapGet m (jsToLower r.source) with
    | none =>
      obtain ⟨ws, h1, h2, h3⟩ := ih writes count
      have hres : relationResolvable m r = false := by
        simp [relationResolvable, hs]
      refine ⟨ws, ?_, h2, ?_⟩
      · rw [buildEdgesGo_cons_skip_src m r rs writes count hs, h1]
        simp [List.filter_cons, hres]
      · rw [h3]
        simp [List.filter_cons, hres]
    | some s =>
      cases ht : jsMapGet m (jsToLower r.target) with
      | none =>
        obtain ⟨ws, h1, h2, h3⟩ := ih writes count
        have hres : relationResolvable m r = false := by
          simp [relationResolvable, hs, ht]
        refine ⟨ws, ?_, h2, ?_⟩
        · rw [buildEdgesGo_cons_skip_tgt m r rs writes count s hs ht, h1]
          simp [List.filter_cons, hres]
        · rw [h3]
          simp [List.filter_cons, hres]
      | some t =>
        by_cases hempty : s = "" ∨ t = ""
        · obtain ⟨ws, h1, h2, h3⟩ := ih writes count
          have hres : relationResolvable m r = false := by
            simp only [relationResolvable, hs, ht]
            rcases hempty with h | h <;> simp [h]
          have hcond : (s = "" || t = "") = true := by
            rcases hempty with h | h <;> simp [h]
          refine ⟨ws, ?_, h2, ?_⟩
          · rw [buildEdgesGo_cons_skip_empty m r rs writes count s t hs ht hcond, h1]
            simp [List.filter_cons, hres]
          · rw [h3]
            simp [List.filter_cons, hres]
        · push_neg at hempty
          obtain ⟨ws, h1, h2, h3⟩ := ih
            (writes ++ [.edge (generateEdgeId s t r.relationType) s t r.relationType
              (r.weight.getD 1)]) (count + 1)
          have hres : relationResolvable m r = true := by
            simp [relationResolvable, hs, ht, hempty.1, hempty.2]
          have hcond : (s = "" || t = "") = false := by
            simp [hempty.1, hempty.2]
          have hfil : List.filter (relationResolvable m) (r :: rs) =
              r :: List.filter (relationResolvable m) rs := by
            simp [List.filter_cons, hres]
          refine ⟨.edge (generateEdgeId s t r.relationType) s t r.relationType
            (r.weight.getD 1) :: ws, ?_, ?_, ?_⟩
          · rw [buildEdgesGo_cons_edge m r rs writes count s t hs ht hcond, h1, hfil]
            simp only [Prod.mk.injEq, List.length_cons]
            constructor
            · simp
            · omega
          · intro w hw
            rcases List.mem_cons.mp hw with h | h
            · subst h; rfl
            · exact h2 w h
          · rw [hfil]
            simp only [List.length_cons]
            omega

/-- C7: with well-formed embeddings, `build_graph_from_document` skips every
relation whose lowercased source or target is absent from the map built from
the currently extracted entities (no edge write for it), and the returned
counts equal the number of node and edge upsert invocations performed; the
specification's example `{entities:[Aspirin, Fever], relations:[Aspirin → Fever:treats,
Unknown → Fever:related_to]}` yields `{nodes_created: 2, edges_created: 1}`. -/
theorem claim_C7_edge_resolution (D : Nat) (entities : List ExtractedEntity)
    (relations : List ExtractedRelation) (embeddings : List (Option (List ℚ)))
    (hok : ∀ emb ∈ embeddings, ∀ v, emb = some v → v.length = D) :
    (buildGraphFromDocument D entities relations embeddings).2 =
      .ok entities.length
        (relations.filter (relationResolvable (finalNameMap entities))).length ∧
    ((buildGraphFromDocument D entities relations embeddings).1.filter
      (fun w => w.isNode)).length = entities.length ∧
    ((buildGraphFromDocument D entities relations embeddings).1.filter
      (fun w => !w.isNode)).length =
      (relations.filter (relationResolvable (finalNameMap entities))).length ∧
    (buildGraphFromDocument 3 entitiesExample relationsExample [none, none]).2 =
      .ok 2 1 := by
  obtain ⟨ws, h1, h2, h3⟩ := buildNodesGo_ok D entities embeddings [] [] 0 hok
  simp only [List.nil_append, Nat.zero_add] at h1
  obtain ⟨ws₂, e1, e2, e3⟩ := buildEdgesGo_spec (finalNameMap entities) relations ws 0
  simp only [Nat.zero_add] at e1
  have hrun : buildGraphFromDocument D entities relations embeddings =
      ((buildEdgesGo (finalNameMap entities) relations ws 0).1,
       .ok entities.length (buildEdgesGo (finalNameMap entities) relations ws 0).2) := by
    unfold buildGraphFromDocument
    rw [h1]
    rfl
  rw [hrun, e1]
  refine ⟨rfl, ?_, ?_, by decide⟩
  · rw [List.filter_append]
    have ha : ws.filter (fun w => w.isNode) = ws := by
      rw [List.filter_eq_self]
      exact h2
    have hb : ws₂.filter (fun w => w.isNode) = [] := by
      rw [List.filter_eq_nil_iff]
      intro w hw
      simp [e2 w hw]
    rw [ha, hb, List.append_nil, h3]
  · rw [List.filter_append]
    have ha : ws.filter (fun w => !w.isNode) = [] := by
      rw [List.filter_eq_nil_iff]
      intro w hw
      simp [h2 w hw]
    have hb : ws₂.filter (fun w => !w.isNode) = ws₂ := by
      rw [List.filter_eq_self]
      intro w hw
      simp [e2 w hw]
    rw [ha, hb, List.nil_append, e3]

/-- Witness for C7: the resolution theorem applied at the specification's
example input (no embedding provider). -/
theorem claim_C7_edge_resolution_witness :
    (buildGraphFromDocument 3 entitiesExample relationsExample [none, none]).2 =
      .ok entitiesExample.length
        (relationsExample.filter
          (relationResolvable (finalNameMap entitiesExample))).length := by
  have h := claim_C7_edge_resolution 3 entitiesExample relationsExample [none, none]
    (by
      intro emb hm v hv
      have hnone : emb = none := by
        rcases List.mem_cons.mp hm with h | h
        · exact h
        · simpa using h
      rw [hnone] at hv
      cases hv)
  exact h.1

theorem chunksEveryAux_length_le {α : Type} (n : Nat) :
    ∀ (fuel : Nat) (l : List α) (c : List α), c ∈ chunksEveryAux n fuel l →
      c.length ≤ n := by
  intro fuel
  induction fuel with
  | zero => intro l c hc; simp [chunksEveryAux] at hc
  | succ fuel ih =>
    intro l c hc
    cases l with
    | nil => simp [chunksEveryAux] at hc
    | cons a l' =>
      rcases List.mem_cons.mp hc with h | h
      · subst h
        rw [List.length_take]
        exact Nat.min_le_left _ _
      · exact ih _ _ h

theorem splitLargeGo_length_le (c : Nat) :
    ∀ (sentences : List (List Char)) (cur : List Char), cur.length ≤ c →
      ∀ p ∈ splitLargeGo c sentences cur, p.length ≤ c := by
  intro sentences
  induction sentences with
  | nil =>
    intro cur hcur p hp
    simp only [splitLargeGo] at hp
    by_cases h : cur.length > 0
    · rw [if_pos h] at hp
      simp only [List.mem_singleton] at hp
      subst hp
      exact hcur
    · rw [if_neg h] at hp
      cases hp
  | cons s rest ih =>
    intro cur hcur p hp
    simp only [splitLargeGo] at hp
    by_cases h1 : s.length > c
    · rw [if_pos h1] at hp
      rcases List.mem_append.mp hp with hp | hp
      · rcases List.mem_append.mp hp with hp | hp
        · by_cases h2 : cur.length > 0
          · rw [if_pos h2] at hp
            simp only [List.mem_singleton] at hp
            subst hp
            exact hcur
          · rw [if_neg h2] at hp
            cases hp
        · rw [chunksEvery] at hp
          exact chunksEveryAux_length_le c _ _ p hp
      · exact ih [] (Nat.zero_le c) p hp
    · rw [if_neg h1] at hp
      by_cases h2 : cur.length + s.length + 1 > c ∧ cur.length > 0
      · rw [if_pos h2] at hp
        rcases List.mem_cons.mp hp with hp | hp
        · subst hp
          exact hcur
        · exact ih s (by omega) p hp
      · rw [if_neg h2] at hp
        by_cases h3 : cur = []
        · rw [if_pos h3] at hp
          exact ih s (by omega) p hp
        · rw [if_neg h3] at hp
          have hcne : cur.length > 0 := List.length_pos.mpr h3
          have hfit : ¬(cur.length + s.length + 1 > c) := fun hgt => h2 ⟨hgt, hcne⟩
          have hlen : (cur ++ ' ' :: s).length ≤ c := by
            simp only [List.length_append, List.length_cons]
            omega
          exact ih _ hlen p hp

theorem splitChunksGo_length_le (c : Nat) :
    ∀ (paras : List (List Char)) (cur : List Char), cur.length ≤ c →
      ∀ ch ∈ splitChunksGo c paras cur, ch.length ≤ c := by
  intro paras
  induction paras with
  | nil =>
    intro cur hcur ch hch
    simp only [splitChunksGo] at hch
    by_cases h : cur = []
    · rw [if_pos h] at hch
      cases hch
    · rw [if_neg h] at hch
      simp only [List.mem_singleton] at hch
      subst hch
      exact hcur
  | cons para rest ih =>
    intro cur hcur ch hch
    simp only [splitChunksGo] at hch
    by_cases h1 : para.length > c
    · rw [if_pos h1] at hch
      rcases List.mem_append.mp hch with hch | hch
      · rcases List.mem_append.mp hch with hch | hch
        · by_cases h2 : cur.length > 0
          · rw [if_pos h2] at hch
            simp only [List.mem_singleton] at hch
            subst hch
            exact hcur
          · rw [if_neg h2] at hch
            cases hch
        · rw [splitLargeParagraph] at hch
          exact splitLargeGo_length_le c _ [] (Nat.zero_le c) ch hch
      · exact ih [] (Nat.zero_le c) ch hch
    · rw [if_neg h1] at hch
      by_cases h2 : cur.length + para.length + 2 > c ∧ cur.length > 0
      · rw [if_pos h2] at hch
        rcases List.mem_cons.mp hch with hch | hch
        · subst hch
          exact hcur
        · exact ih para (by omega) ch hch
      · rw [if_neg h2] at hch
        by_cases h3 : cur = []
        · rw [if_pos h3] at hch
          exact ih para (by omega) ch hch
        · rw [if_neg h3] at hch
          have hcne : cur.length > 0 := List.length_pos.mpr h3
          have hfit : ¬(cur.length + para.length + 2 > c) := fun hgt => h2 ⟨hgt, hcne⟩
          have hlen : (cur ++ '\n' :: '\n' :: para).length ≤ c := by
            simp only [List.length_append, List.length_cons]
            omega
          exact ih _ hlen ch hch

/-- C8 (amended): every chunk produced by the extractor's chunking has length
at most the chunk budget, and the chunks appear in document order; but the
separators consumed at split points (paragraph newline runs, the whitespace
after sentence terminators) are dropped or normalized when pieces are
re-joined, so the chunks do not in general form a partition of the input
text: their concatenation can differ from the input. -/
theorem claim_C8_chunk_budget (text : List Char) (chunkSize : Nat) :
    ∀ chunk ∈ splitIntoChunks text chunkSize, chunk.length ≤ chunkSize := by
  intro chunk hchunk
  rw [splitIntoChunks] at hchunk
  by_cases h : text.length ≤ chunkSize
  · rw [if_pos h] at hchunk
    simp only [List.mem_singleton] at hchunk
    subst hchunk
    exact h
  · rw [if_neg h] at hchunk
    exact splitChunksGo_length_le chunkSize _ [] (Nat.zero_le _) chunk hchunk

/-- Witness for C8 (amended): the budget bound at a concrete input. -/
theorem claim_C8_chunk_budget_witness :
    (['a', 'b'] : List Char) ∈ splitIntoChunks ['a', 'b'] 3000 ∧
    (['a', 'b'] : List Char).length ≤ 3000 :=
  ⟨by decide, claim_C8_chunk_budget ['a', 'b'] 3000 ['a', 'b'] (by decide)⟩

theorem splitChunksGo_nil (c : Nat) (cur : List Char) :
    splitChunksGo c [] cur = (if cur = [] then [] else [cur]) := rfl

theorem splitChunksGo_cons (c : Nat) (para : List Char) (rest : List (List Char))
    (cur : List Char) :
    splitChunksGo c (para :: rest) cur =
      (if para.length > c then
        (if cur.length > 0 then [cur] else []) ++ splitLargeParagraph c para ++
          splitChunksGo c rest []
       else if cur.length + para.length + 2 > c ∧ cur.length > 0 then
         cur :: splitChunksGo c rest para
       else splitChunksGo c rest (if cur = [] then para else cur ++ '\n' :: '\n' :: para)) := rfl

theorem paraSplitGo_cons (consuming : Bool) (cur : List Char) (ch : Char)
    (rest : List Char) :
    paraSplitGo consuming cur (ch :: rest) =
      (if consuming && ch = '\n' then paraSplitGo true cur rest
       else if ch = '\n' && rest.head? = some '\n' then
         cur.reverse :: paraSplitGo true [] rest
       else paraSplitGo false (ch :: cur) rest) := rfl

theorem paraSplitGo_replicateA (n : Nat) :
    ∀ cur : List Char,
      paraSplitGo false cur (List.replicate n 'A' ++ '\n' :: '\n' :: ['B']) =
        (cur.reverse ++ List.replicate n 'A') :: [['B']] := by
  induction n with
  | zero =>
    intro cur
    simp [paraSplitGo]
  | succ n ih =>
    intro cur
    rw [List.replicate_succ, List.cons_append, paraSplitGo_cons]
    rw [if_neg (by simp), if_neg (by simp), ih ('A' :: cur)]
    simp [List.replicate_succ]

/-- Counterexample for C8: on 3000 `A`s + `"\n\n"` + `"B"` (3003 characters,
budget 3000) the chunks are `["A"*3000, "B"]`; their concatenation has 3001
characters, so the chunks are not a partition of the input text — the
`"\n\n"` separator has been dropped. -/
theorem claim_C8_counterexample :
    splitIntoChunks chunkTextFixture 3000 = [List.replicate 3000 'A', ['B']] ∧
    concatChunks (splitIntoChunks chunkTextFixture 3000) ≠ chunkTextFixture := by
  have hlen : chunkTextFixture.length = 3003 := by
    rw [chunkTextFixture]
    simp only [List.length_append, List.length_cons, List.length_replicate,
      List.length_nil]
  have hparas : splitParas chunkTextFixture = [List.replicate 3000 'A', ['B']] := by
    rw [splitParas, chunkTextFixture, paraSplitGo_replicateA 3000 []]
    rfl
  have hstep1 : ∀ x : List Char, x.length = 3000 →
      splitChunksGo 3000 [x, ['B']] [] = [x, ['B']] := by
    intro x hx
    rw [splitChunksGo_cons,
      if_neg (by omega : ¬(x.length > 3000)),
      if_neg (by simp : ¬(([] : List Char).length + x.length + 2 > 3000 ∧
        ([] : List Char).length > 0)),
      if_pos rfl,
      splitChunksGo_cons,
      if_neg (by simp : ¬((['B'] : List Char).length > 3000)),
      if_pos (by simp only [List.length_cons, List.length_nil]; omega :
        (x.length + (['B'] : List Char).length + 2 > 3000 ∧ x.length > 0)),
      splitChunksGo_nil,
      if_neg (by simp : ¬((['B'] : List Char) = []))]
  have hchunks : splitIntoChunks chunkTextFixture 3000 =
      [List.replicate 3000 'A', ['B']] := by
    rw [splitIntoChunks, if_neg (by rw [hlen]; decide), hparas,
      hstep1 (List.replicate 3000 'A') (List.length_replicate 3000 'A')]
  refine ⟨hchunks, ?_⟩
  rw [hchunks]
  intro h
  have hl := congrArg List.length h
  rw [hlen] at hl
  simp only [concatChunks, List.foldr, List.length_append, List.length_replicate,
    List.length_cons, List.length_nil] at hl
  omega

theorem jsMapGet_set_eq {α : Type} (m : List (String × α)) (k : String) (v : α) :
    jsMapGet (jsMapSet m k v) k = some v := by
  induction m with
  | nil => simp [jsMapSet, jsMapGet]
  | cons p rest ih =>
    obtain ⟨k0, v0⟩ := p
    simp only [jsMapSet]
    by_cases h0 : k0 = k
    · rw [if_pos h0]
      simp [jsMapGet]
    · rw [if_neg h0]
      simp only [jsMapGet, if_neg h0]
      exact ih

theorem jsMapGet_set_ne {α : Type} (m : List (String × α)) (k k' : String) (v : α)
    (h : k ≠ k') : jsMapGet (jsMapSet m k v) k' = jsMapGet m k' := by
  induction m with
  | nil => simp [jsMapSet, jsMapGet, h]
  | cons p rest ih =>
    obtain ⟨k0, v0⟩ := p
    simp only [jsMapSet]
    by_cases h0 : k0 = k
    · rw [if_pos h0]
      subst h0
      simp only [jsMapGet, if_neg h]
    · rw [if_neg h0]
      simp only [jsMapGet]
      by_cases h1 : k0 = k'
      · rw [if_pos h1, if_pos h1]
      · rw [if_neg h1, if_neg h1]
        exact ih

theorem rankContribFrom_of_not_mem (id : String) :
    ∀ (ids : List String) (k : Nat), id ∉ ids → rankContribFrom k ids id = none := by
  intro ids
  induction ids with
  | nil => intro k _; rfl
  | cons x xs ih =>
    intro k h
    have hx : x ≠ id := fun he => h (he ▸ List.mem_cons_self x xs)
    simp only [rankContribFrom, if_neg hx]
    exact ih (k + 1) (fun hm => h (List.mem_cons_of_mem _ hm))

theorem optAdd_none_right (x : Option ℚ) : optAdd x none = x := by
  cases x <;> rfl

theorem optAdd_none_left (y : Option ℚ) : optAdd none y = y := by
  cases y <;> rfl

theorem mergeTextStep_hit (m : List (String × RagResult)) (it : Nat × TextHit)
    (existing : RagResult) (hget : jsMapGet m it.2.id = some existing) :
    mergeTextStep m it =
      jsMapSet m it.2.id
        { existing with textScore := some it.2.textScore,
                        combinedScore := existing.combinedScore +
                          1 / (60 + (it.1 + 1 : ℚ)) } := by
  simp only [mergeTextStep, hget]

theorem mergeTextStep_miss (m : List (String × RagResult)) (it : Nat × TextHit)
    (hget : jsMapGet m it.2.id = none) :
    mergeTextStep m it =
      jsMapSet m it.2.id (textHitToResult it.2 (1 / (60 + (it.1 + 1 : ℚ)))) := by
  simp only [mergeTextStep, hget]

theorem vecFoldLookup (vec : List VectorHit) :
    ∀ (k : Nat) (acc : List (String × RagResult)),
      (∀ v ∈ vec, jsMapGet acc v.id = none) →
      (vec.map VectorHit.id).Nodup →
      ∀ id : String,
        (jsMapGet ((List.enumFrom k vec).foldl mergeVectorStep acc) id).map
          (fun r => r.combinedScore) =
        (match rankContribFrom k (vec.map VectorHit.id) id with
         | some c => some c
         | none => (jsMapGet acc id).map (fun r => r.combinedScore)) := by
  induction vec with
  | nil => intro k acc _ _ id; rfl
  | cons v rest ih =>
    intro k acc hacc hnodup id
    rw [List.map_cons] at hnodup
    obtain ⟨hnd1, hnd2⟩ := List.nodup_cons.mp hnodup
    have hacc' : ∀ w ∈ rest, jsMapGet (mergeVectorStep acc (k, v)) w.id = none := by
      intro w hw
      rw [mergeVectorStep,
        jsMapGet_set_ne _ _ _ _
          (fun he => hnd1 (by rw [he]; exact List.mem_map_of_mem VectorHit.id hw))]
      exact hacc w (List.mem_cons_of_mem _ hw)
    rw [show List.enumFrom k (v :: rest) = (k, v) :: List.enumFrom (k + 1) rest from rfl,
      List.foldl_cons, ih (k + 1) _ hacc' hnd2 id]
    simp only [List.map_cons, rankContribFrom]
    by_cases hid : v.id = id
    · subst hid
      rw [if_pos rfl,
        rankContribFrom_of_not_mem v.id (rest.map VectorHit.id) (k + 1) hnd1,
        mergeVectorStep, jsMapGet_set_eq]
      rfl
    · rw [if_neg hid, mergeVectorStep, jsMapGet_set_ne _ _ _ _ hid]

theorem textFoldLookup (text : List TextHit) :
    ∀ (k : Nat) (acc : List (String × RagResult)),
      (text.map TextHit.id).Nodup →
      ∀ id : String,
        (jsMapGet ((List.enumFrom k text).foldl mergeTextStep acc) id).map
          (fun r => r.combinedScore) =
        optAdd ((jsMapGet acc id).map (fun r => r.combinedScore))
               (rankContribFrom k (text.map TextHit.id) id) := by
  induction text with
  | nil =>
    intro k acc _ id
    rw [show List.enumFrom k ([] : List TextHit) = [] from rfl, List.foldl_nil]
    simp only [List.map_nil]
    rw [show rankContribFrom k ([] : List String) id = none from rfl, optAdd_none_right]
  | cons t rest ih =>
    intro k acc hnodup id
    rw [List.map_cons] at hnodup
    obtain ⟨hnd1, hnd2⟩ := List.nodup_cons.mp hnodup
    rw [show List.enumFrom k (t :: rest) = (k, t) :: List.enumFrom (k + 1) rest from rfl,
      List.foldl_cons]
    simp only [List.map_cons, rankContribFrom]
    cases hget : jsMapGet acc t.id with
    | some existing =>
      rw [mergeTextStep_hit acc (k, t) existing hget, ih (k + 1) _ hnd2 id]
      by_cases hid : t.id = id
      · subst hid
        rw [if_pos rfl,
          rankContribFrom_of_not_mem t.id (rest.map TextHit.id) (k + 1) hnd1,
          optAdd_none_right, jsMapGet_set_eq, hget]
        rfl
      · rw [if_neg hid, jsMapGet_set_ne _ _ _ _ hid]
    | none =>
      rw [mergeTextStep_miss acc (k, t) hget, ih (k + 1) _ hnd2 id]
      by_cases hid : t.id = id
      · subst hid
        rw [if_pos rfl,
          rankContribFrom_of_not_mem t.id (rest.map TextHit.id) (k + 1) hnd1,
          optAdd_none_right, jsMapGet_set_eq, hget]
        rfl
      · rw [if_neg hid, jsMapGet_set_ne _ _ _ _ hid]

theorem insertScoreDesc_perm (x : RagResult) :
    ∀ l : List RagResult, (insertScoreDesc x l).Perm (x :: l) := by
  intro l
  induction l with
  | nil => rfl
  | cons y ys ih =>
    simp only [insertScoreDesc]
    by_cases hc : x.combinedScore ≤ y.combinedScore
    · rw [if_pos hc]
      exact ((ih.cons y).trans (List.Perm.swap x y ys)).symm.symm
    · rw [if_neg hc]

theorem insertScoreDesc_pairwise (x : RagResult) :
    ∀ l : List RagResult,
      List.Pairwise (fun a b => b.combinedScore ≤ a.combinedScore) l →
      List.Pairwise (fun a b => b.combinedScore ≤ a.combinedScore)
        (insertScoreDesc x l) := by
  intro l
  induction l with
  | nil => intro _; simp [insertScoreDesc]
  | cons y ys ih =>
    intro h
    obtain ⟨hy, hys⟩ := List.pairwise_cons.mp h
    simp only [insertScoreDesc]
    by_cases hc : x.combinedScore ≤ y.combinedScore
    · rw [if_pos hc]
      refine List.pairwise_cons.mpr ⟨?_, ih hys⟩
      intro a ha
      rcases List.mem_cons.mp ((insertScoreDesc_perm x ys).mem_iff.mp ha) with h' | h'
      · subst h'; exact hc
      · exact hy a h'
    · rw [if_neg hc]
      have hlt : y.combinedScore ≤ x.combinedScore := le_of_lt (lt_of_not_le hc)
      refine List.pairwise_cons.mpr ⟨?_, h⟩
      intro a ha
      rcases List.mem_cons.mp ha with h' | h'
      · subst h'; exact hlt
      · exact le_trans (hy a h') hlt

theorem foldl_insert_perm :
    ∀ (l acc : List RagResult),
      (l.foldl (fun acc x => insertScoreDesc x acc) acc).Perm (l ++ acc) := by
  intro l
  induction l with
  | nil => intro acc; simp
  | cons x xs ih =>
    intro acc
    rw [List.foldl_cons]
    refine (ih (insertScoreDesc x acc)).trans ?_
    refine (List.Perm.append_left xs (insertScoreDesc_perm x acc)).trans ?_
    exact List.perm_middle

theorem foldl_insert_pairwise :
    ∀ (l acc : List RagResult),
      List.Pairwise (fun a b => b.combinedScore ≤ a.combinedScore) acc →
      List.Pairwise (fun a b => b.combinedScore ≤ a.combinedScore)
        (l.foldl (fun acc x => insertScoreDesc x acc) acc) := by
  intro l
  induction l with
  | nil => intro acc h; exact h
  | cons x xs ih =>
    intro acc h
    rw [List.foldl_cons]
    exact ih _ (insertScoreDesc_pairwise x acc h)

theorem sortScoreDesc_perm (l : List RagResult) : (sortScoreDesc l).Perm l := by
  rw [sortScoreDesc]
  have h := foldl_insert_perm l []
  simpa using h

theorem sortScoreDesc_pairwise (l : List RagResult) :
    List.Pairwise (fun a b => b.combinedScore ≤ a.combinedScore) (sortScoreDesc l) :=
  foldl_insert_pairwise l [] (by simp)

/-- C1 (amended): `hybrid_search` fuses by Reciprocal Rank Fusion with
`C = 60`. The fused score of a document in the merged map is the sum of its
per-list contributions `1/(60 + rank)` (one when present in one list, both
when present in both); the returned list is the merged values stably sorted
by fused score descending and truncated to `k`. On the example
(vector `[A,B]`, text `[B,C]`) the order is `B, A, C` with scores
`1/62 + 1/61` (B is at vector rank 2 and text rank 1), `1/61`, `1/62` — the
original claim's `1/61 + 1/61` for B contradicts its own rank rule. -/
theorem claim_C1_rrf_fusion :
    (∀ (vec : List VectorHit) (text : List TextHit) (id : String),
      (vec.map VectorHit.id).Nodup → (text.map TextHit.id).Nodup →
      (jsMapGet (mergeTextResults (mergeVectorResults vec) text) id).map
          (fun r => r.combinedScore) =
        optAdd (rankContrib (vec.map VectorHit.id) id)
               (rankContrib (text.map TextHit.id) id)) ∧
    (∀ (vec : List VectorHit) (text : List TextHit) (k : Nat),
      hybridSearch vec text k = (sortScoreDesc (hybridMerged vec text)).take k ∧
      List.Pairwise (fun a b => b.combinedScore ≤ a.combinedScore)
        (sortScoreDesc (hybridMerged vec text)) ∧
      (sortScoreDesc (hybridMerged vec text)).Perm (hybridMerged vec text)) ∧
    (hybridSearch vecExample textExample 10).map (fun r => (r.id, r.combinedScore)) =
      [("B", 1/62 + 1/61), ("A", 1/61), ("C", 1/62)] := by
  refine ⟨?_, ?_, by decide⟩
  · intro vec text id hvec htext
    have hv := vecFoldLookup vec 0 [] (by intro v _; rfl) hvec id
    have ht := textFoldLookup text 0 (mergeVectorResults vec) htext id
    rw [show mergeTextResults (mergeVectorResults vec) text =
      (List.enumFrom 0 text).foldl mergeTextStep (mergeVectorResults vec) from rfl]
    rw [ht]
    rw [show mergeVectorResults vec =
      (List.enumFrom 0 vec).foldl mergeVectorStep [] from rfl]
    rw [hv]
    rw [rankContrib, rankContrib]
    cases rankContribFrom 0 (vec.map VectorHit.id) id <;>
      simp [optAdd, jsMapGet]
  · intro vec text k
    exact ⟨rfl, sortScoreDesc_pairwise _, sortScoreDesc_perm _⟩

/-- Witness for C1: the fused-score characterization applied at the concrete
example lists and the id `"B"`. -/
theorem claim_C1_rrf_fusion_witness :
    (jsMapGet (mergeTextResults (mergeVectorResults vecExample) textExample) "B").map
        (fun r => r.combinedScore) =
      optAdd (rankContrib (vecExample.map VectorHit.id) "B")
             (rankContrib (textExample.map TextHit.id) "B") :=
  claim_C1_rrf_fusion.1 vecExample textExample "B" (by decide) (by decide)

/-- Counterexample for C1 as stated: the claim's example asserts fused scores
`1/61 + 1/61, 1/61, 1/62` for `B, A, C`, but `B` sits at rank 2 of the vector
list, so its vector contribution is `1/62`, not `1/61`: the code returns
`1/62 + 1/61` for `B`. -/
theorem claim_C1_counterexample :
    (hybridSearch vecExample textExample 10).map (fun r => (r.id, r.combinedScore)) ≠
      [("B", 1/61 + 1/61), ("A", 1/61), ("C", 1/62)] := by
  decide

theorem lexLeB_total : ∀ a b : List Char, lexLeB a b = true ∨ lexLeB b a = true
  | [], _ => Or.inl rfl
  | _ :: _, [] => Or.inr rfl
  | a :: as, b :: bs => by
    by_cases h1 : a.toNat < b.toNat
    · exact Or.inl (by rw [lexLeB, if_pos h1])
    · by_cases h2 : b.toNat < a.toNat
      · exact Or.inr (by rw [lexLeB, if_pos h2])
      · rcases lexLeB_total as bs with h | h
        · exact Or.inl (by rw [lexLeB, if_neg h1, if_neg h2]; exact h)
        · exact Or.inr (by rw [lexLeB, if_neg h2, if_neg h1]; exact h)

theorem lexLeB_antisymm : ∀ a b : List Char,
    lexLeB a b = true → lexLeB b a = true → a = b
  | [], [], _, _ => rfl
  | [], _ :: _, _, h => by rw [lexLeB] at h; exact absurd h (by simp)
  | _ :: _, [], h, _ => by rw [lexLeB] at h; exact absurd h (by simp)
  | a :: as, b :: bs, h1, h2 => by
    by_cases hab : a.toNat < b.toNat
    · rw [lexLeB, if_neg (by omega), if_pos hab] at h2
      exact absurd h2 (by simp)
    · by_cases hba : b.toNat < a.toNat
      · rw [lexLeB, if_neg (by omega), if_pos hba] at h1
        exact absurd h1 (by simp)
      · have hn : a.toNat = b.toNat := by omega
        have ha : a = b := Char.ext (UInt32.ext hn)
        rw [lexLeB, if_neg hab, if_neg hba] at h1
        rw [lexLeB, if_neg hba, if_neg hab] at h2
        rw [ha, lexLeB_antisymm as bs h1 h2]

theorem lexLeB_trans : ∀ a b c : List Char,
    lexLeB a b = true → lexLeB b c = true → lexLeB a c = true
  | [], _, _, _, _ => rfl
  | _ :: _, [], _, h, _ => by rw [lexLeB] at h; exact absurd h (by simp)
  | _ :: _, _ :: _, [], _, h => by rw [lexLeB] at h; exact absurd h (by simp)
  | a :: as, b :: bs, c :: cs, h1, h2 => by
    rw [lexLeB] at h1 h2 ⊢
    by_cases hab : a.toNat < b.toNat
    · by_cases hbc : b.toNat < c.toNat
      · rw [if_pos (by omega)]
      · by_cases hcb : c.toNat < b.toNat
        · rw [if_neg hbc, if_pos hcb] at h2
          exact absurd h2 (by simp)
        · rw [if_pos (by omega)]
    · by_cases hba : b.toNat < a.toNat
      · rw [if_neg hab, if_pos hba] at h1
        exact absurd h1 (by simp)
      · by_cases hbc : b.toNat < c.toNat
        · rw [if_pos (by omega)]
        · by_cases hcb : c.toNat < b.toNat
          · rw [if_neg hbc, if_pos hcb] at h2
            exact absurd h2 (by simp)
          · rw [if_neg hab, if_neg hba] at h1
            rw [if_neg hbc, if_neg hcb] at h2
            rw [if_neg (by omega), if_neg (by omega)]
            exact lexLeB_trans as bs cs h1 h2

theorem keyLeB_total (a b : String) : keyLeB a b = true ∨ keyLeB b a = true :=
  lexLeB_total a.data b.data

theorem keyLeB_antisymm {a b : String} (h1 : keyLeB a b = true)
    (h2 : keyLeB b a = true) : a = b := by
  cases a; cases b
  exact congrArg String.mk (lexLeB_antisymm _ _ h1 h2)

theorem keyLeB_trans {a b c : String} (h1 : keyLeB a b = true)
    (h2 : keyLeB b c = true) : keyLeB a c = true :=
  lexLeB_trans a.data b.data c.data h1 h2

theorem insertFieldG_perm {β : Type} (x : String × β) :
    ∀ l : List (String × β), (insertFieldG x l).Perm (x :: l)
  | [] => List.Perm.refl _
  | y :: ys => by
    rw [insertFieldG]
    by_cases h : keyLeB y.1 x.1 = true
    · rw [if_pos h]
      exact ((insertFieldG_perm x ys).cons y).trans (List.Perm.swap x y ys)
    · rw [if_neg h]

theorem insertFieldG_pairwise {β : Type} (x : String × β) :
    ∀ l : List (String × β),
      List.Pairwise (fun a b => keyLeB a.1 b.1 = true) l →
      List.Pairwise (fun a b => keyLeB a.1 b.1 = true) (insertFieldG x l)
  | [], _ => by rw [insertFieldG]; exact List.pairwise_singleton _ _
  | y :: ys, h => by
    obtain ⟨hy, hys⟩ := List.pairwise_cons.mp h
    rw [insertFieldG]
    by_cases hc : keyLeB y.1 x.1 = true
    · rw [if_pos hc]
      refine List.pairwise_cons.mpr ⟨?_, insertFieldG_pairwise x ys hys⟩
      intro a ha
      rcases List.mem_cons.mp ((insertFieldG_perm x ys).mem_iff.mp ha) with h' | h'
      · subst h'; exact hc
      · exact hy a h'
    · rw [if_neg hc]
      have hxy : keyLeB x.1 y.1 = true := (keyLeB_total x.1 y.1).resolve_right hc
      refine List.pairwise_cons.mpr ⟨?_, h⟩
      intro a ha
      rcases List.mem_cons.mp ha with h' | h'
      · subst h'; exact hxy
      · exact keyLeB_trans hxy (hy a h')

theorem sortFieldsG_perm {β : Type} : ∀ l : List (String × β), (sortFieldsG l).Perm l
  | [] => List.Perm.refl _
  | x :: xs =>
    (insertFieldG_perm x (List.foldr insertFieldG [] xs)).trans
      ((sortFieldsG_perm xs).cons x)

theorem sortFieldsG_pairwise {β : Type} : ∀ l : List (String × β),
    List.Pairwise (fun a b => keyLeB a.1 b.1 = true) (sortFieldsG l)
  | [] => List.Pairwise.nil
  | x :: xs => insertFieldG_pairwise x (List.foldr insertFieldG [] xs)
      (sortFieldsG_pairwise xs)

theorem sorted_fields_eq {β : Type} : ∀ l₁ l₂ : List (String × β),
    l₁.Perm l₂ →
    List.Pairwise (fun a b => keyLeB a.1 b.1 = true) l₁ →
    List.Pairwise (fun a b => keyLeB a.1 b.1 = true) l₂ →
    (l₁.map Prod.fst).Nodup → l₁ = l₂
  | [], _, hp, _, _, _ => (hp.symm.eq_nil).symm
  | _ :: _, [], hp, _, _, _ => absurd hp.eq_nil (by simp)
  | x :: xs, y :: ys, hp, h1, h2, hnd => by
    obtain ⟨hxy1, h1'⟩ := List.pairwise_cons.mp h1
    obtain ⟨hxy2, h2'⟩ := List.pairwise_cons.mp h2
    rw [List.map_cons, List.nodup_cons] at hnd
    obtain ⟨hnd1, hnd2⟩ := hnd
    have hxy : x = y := by
      rcases List.mem_cons.mp (hp.mem_iff.mp (List.mem_cons_self x xs)) with h' | h'
      · exact h'
      · rcases List.mem_cons.mp (hp.symm.mem_iff.mp (List.mem_cons_self y ys)) with h'' | h''
        · exact h''.symm
        · have hk : x.1 = y.1 := keyLeB_antisymm (hxy1 y h'') (hxy2 x h')
          exact absurd (by rw [hk]; exact List.mem_map_of_mem Prod.fst h'') hnd1
    subst hxy
    rw [sorted_fields_eq xs ys hp.cons_inv h1' h2' hnd2]

theorem sortFieldsG_eq_of_perm {β : Type} {l l' : List (String × β)}
    (hp : l.Perm l') (hnd : (l.map Prod.fst).Nodup) :
    sortFieldsG l = sortFieldsG l' :=
  sorted_fields_eq _ _
    ((sortFieldsG_perm l).trans (hp.trans (sortFieldsG_perm l').symm))
    (sortFieldsG_pairwise l) (sortFieldsG_pairwise l')
    (((sortFieldsG_perm l).map Prod.fst).nodup_iff.mpr hnd)

theorem stableStringifyFields_map : ∀ fs : List (String × Json),
    stableStringifyFields fs = fs.map (fun kv => (kv.1, stableStringify kv.2))
  | [] => rfl
  | (k, v) :: fs =>
    congrArg (fun t => (k, stableStringify v) :: t) (stableStringifyFields_map fs)

theorem stableStringifyFields_keys (fs : List (String × Json)) :
    (stableStringifyFields fs).map Prod.fst = fs.map Prod.fst := by
  rw [stableStringifyFields_map, List.map_map]
  rfl

theorem distinctKeysB_iff : ∀ ks : List String, distinctKeysB ks = true ↔ ks.Nodup
  | [] => by simp [distinctKeysB]
  | k :: ks => by
    rw [distinctKeysB]
    simp [distinctKeysB_iff ks, List.nodup_cons]

mutual

theorem keyPerm_stringify : ∀ {a b : Json}, KeyPerm a b →
    nodupKeysB a = true → stableStringify a = stableStringify b
  | _, _, KeyPerm.null, _ => rfl
  | _, _, KeyPerm.bool b, _ => rfl
  | _, _, KeyPerm.num q, _ => rfl
  | _, _, KeyPerm.str s, _ => rfl
  | _, _, @KeyPerm.arr xs ys h, hn => by
    have hxs : nodupKeysListB xs = true := hn
    show "[" ++ joinComma (stableStringifyList xs) ++ "]" =
      "[" ++ joinComma (stableStringifyList ys) ++ "]"
    rw [keyPermList_stringify h hxs]
  | _, _, @KeyPerm.obj fs gs gs' hf hp, hn => by
    have hn' : (distinctKeysB (fs.map Prod.fst) && nodupKeysFieldsB fs) = true := hn
    rw [Bool.and_eq_true] at hn'
    obtain ⟨hd, hfl⟩ := hn'
    show "\x7b" ++ joinComma ((sortFieldsG (stableStringifyFields fs)).map
        (fun kv => quoteJson kv.1 ++ ":" ++ kv.2)) ++ "\x7d" =
      "\x7b" ++ joinComma ((sortFieldsG (stableStringifyFields gs)).map
        (fun kv => quoteJson kv.1 ++ ":" ++ kv.2)) ++ "\x7d"
    have h1 : stableStringifyFields fs = stableStringifyFields gs' :=
      keyPermFields_stringify hf hfl
    have h2 : (stableStringifyFields gs').Perm (stableStringifyFields gs) := by
      rw [stableStringifyFields_map, stableStringifyFields_map]
      exact hp.map _
    have h3 : (stableStringifyFields fs).Perm (stableStringifyFields gs) := by
      rw [h1]; exact h2
    have hnd : ((stableStringifyFields fs).map Prod.fst).Nodup := by
      rw [stableStringifyFields_keys]
      exact (distinctKeysB_iff _).mp hd
    rw [sortFieldsG_eq_of_perm h3 hnd]

theorem keyPermList_stringify : ∀ {xs ys : List Json}, KeyPermList xs ys →
    nodupKeysListB xs = true → stableStringifyList xs = stableStringifyList ys
  | _, _, KeyPermList.nil, _ => rfl
  | _, _, @KeyPermList.cons x y xs ys hxy hrest, hn => by
    have hn' : (nodupKeysB x && nodupKeysListB xs) = true := hn
    rw [Bool.and_eq_true] at hn'
    obtain ⟨h1, h2⟩ := hn'
    show stableStringify x :: stableStringifyList xs =
      stableStringify y :: stableStringifyList ys
    rw [keyPerm_stringify hxy h1, keyPermList_stringify hrest h2]

theorem keyPermFields_stringify : ∀ {fs gs : List (String × Json)},
    KeyPermFields fs gs →
    nodupKeysFieldsB fs = true → stableStringifyFields fs = stableStringifyFields gs
  | _, _, KeyPermFields.nil, _ => rfl
  | _, _, @KeyPermFields.cons k v w fs gs hvw hrest, hn => by
    have hn' : (nodupKeysB v && nodupKeysFieldsB fs) = true := hn
    rw [Bool.and_eq_true] at hn'
    obtain ⟨h1, h2⟩ := hn'
    show (k, stableStringify v) :: stableStringifyFields fs =
      (k, stableStringify w) :: stableStringifyFields gs
    rw [keyPerm_stringify hvw h1, keyPermFields_stringify hrest h2]

end

/-- C5: the cache key is the SHA-256 hex digest of the stable JSON
serialization (object keys sorted recursively at every nesting level, array
order preserved) of the request value built from cacheVersion "v2", the
messages, the context and the normalized plan; and permuting the keys of any
object anywhere in a serialized value (whose objects, being JavaScript
objects, have distinct keys) leaves the serialization, hence the hash,
unchanged. -/
theorem claim_C5_cache_key_stability :
    (∀ (messages : List ChatMessage) (context : List (String × String))
       (plan : SearchPlan),
      cacheKeyOf messages context plan =
        sha256Hex (stableStringify (cacheRequestJson messages context plan))) ∧
    (∀ a b : Json, KeyPerm a b → nodupKeysB a = true →
      sha256Hex (stableStringify a) = sha256Hex (stableStringify b)) :=
  ⟨fun _ _ _ => rfl,
   fun _ _ hp hn => congrArg sha256Hex (keyPerm_stringify hp hn)⟩

/-- Witness for C5: swapping the two keys of a concrete object leaves the
hash unchanged. -/
theorem claim_C5_cache_key_stability_witness :
    nodupKeysB (Json.obj [("b", Json.num 1), ("a", Json.str "x")]) = true ∧
    sha256Hex (stableStringify (Json.obj [("b", Json.num 1), ("a", Json.str "x")])) =
      sha256Hex (stableStringify (Json.obj [("a", Json.str "x"), ("b", Json.num 1)])) :=
  ⟨by decide,
   claim_C5_cache_key_stability.2 _ _
     (KeyPerm.obj
       (KeyPermFields.cons (KeyPerm.num 1)
         (KeyPermFields.cons (KeyPerm.str "x") KeyPermFields.nil))
       (List.Perm.swap ("a", Json.str "x") ("b", Json.num 1) []))
     (by decide)⟩


end RegularRag
